import Mathlib

/-!
Shallow embedding of the `library_checkout` Django application
(`library/models.py`, `library/forms.py`, `library/views.py`).

The database is modelled as an explicit state: each table is an
association list from primary key (`Nat`) to row.  the Django
`transaction.atomic` blocks are modelled functionally: an operation
either returns the updated state (`Except.ok`) or an error
(`Except.error`) leaving the state untouched, which is exact here
because every failure path in the source raises before any write.
Timestamps (`timezone.now()`, `auto_now_add`) are modelled by a logical
clock `now : Nat` carried in the state and advanced once per request.
-/

namespace LibraryCheckout

/-- `library/models.py` `Book`: `PositiveIntegerField`s become `Nat`,
the nullable unique `isbn` becomes `Option String`, the many-to-many
`genres` becomes the list of related `Genre` pks. -/
structure Book where
  title : String
  author : String
  isbn : Option String
  genres : List Nat
  totalCopies : Nat
  availableCopies : Nat
  addedAt : Nat
deriving Repr, DecidableEq

/-- `library/models.py` `Loan`: foreign keys become pks, the nullable
`returned_at` becomes `Option Nat`. -/
structure Loan where
  memberId : Nat
  bookId : Nat
  checkedOutAt : Nat
  returnedAt : Option Nat
  isActive : Bool
deriving Repr, DecidableEq

/-- The database state: the `Book` and `Loan` tables keyed by pk,
the auto-increment counters, and the logical clock. -/
structure DB where
  books : List (Nat × Book)
  loans : List (Nat × Loan)
  nextBookPk : Nat
  nextLoanPk : Nat
  now : Nat
deriving Repr, DecidableEq

/-- The empty database (Django pks start at 1). -/
def initDB : DB := { books := [], loans := [], nextBookPk := 1, nextLoanPk := 1, now := 0 }

/-- `Model.objects.get(pk=...)`: first row with the given pk. -/
def lookupTbl {α : Type} : List (Nat × α) → Nat → Option α
  | [], _ => none
  | e :: rest, pk => if e.1 = pk then some e.2 else lookupTbl rest pk

/-- `row.save()`: overwrite the row with the given pk (the row a
`lookupTbl` would have fetched). -/
def setTbl {α : Type} : List (Nat × α) → Nat → α → List (Nat × α)
  | [], _, _ => []
  | e :: rest, pk, v => if e.1 = pk then (pk, v) :: rest else e :: setTbl rest pk v

/-- Delete the row with the given pk (`Book.delete()`). -/
def eraseTbl {α : Type} : List (Nat × α) → Nat → List (Nat × α)
  | [], _ => []
  | e :: rest, pk => if e.1 = pk then eraseTbl rest pk else e :: eraseTbl rest pk

/-- The `on_delete=CASCADE` of `Loan.book`: deleting a book removes all
its loan rows. -/
def dropLoansOfBook : List (Nat × Loan) → Nat → List (Nat × Loan)
  | [], _ => []
  | e :: rest, bpk =>
      if e.2.bookId = bpk then dropLoansOfBook rest bpk
      else e :: dropLoansOfBook rest bpk

def lookupBook (db : DB) (pk : Nat) : Option Book := lookupTbl db.books pk

def lookupLoan (db : DB) (pk : Nat) : Option Loan := lookupTbl db.loans pk

/-- `Loan.objects.filter(member=member, book=book, is_active=True).exists()`. -/
def hasActiveLoan (db : DB) (member bookPk : Nat) : Bool :=
  db.loans.any fun e =>
    e.2.memberId = member && e.2.bookId = bookPk && e.2.isActive

/-- `book.loans.filter(is_active=True).exists()` for a given book pk. -/
def hasActiveBookLoan (db : DB) (bookPk : Nat) : Bool :=
  db.loans.any fun e => e.2.bookId = bookPk && e.2.isActive

/-- Number of active `Loan` rows for a given book pk. -/
def activeBookLoanCount (db : DB) (bookPk : Nat) : Nat :=
  db.loans.countP fun e => e.2.bookId = bookPk && e.2.isActive

/-- The exceptions the transaction helpers raise:
`Book.DoesNotExist` / `Loan.DoesNotExist`, and `ValueError(msg)`. -/
inductive DjangoError where
  | doesNotExist
  | valueError (msg : String)
deriving Repr, DecidableEq

def isErr {ε α : Type} : Except ε α → Bool
  | .error _ => true
  | .ok _ => false

/-- `views._execute_checkout(member, book_pk)`: fetch the book row under
lock, refuse when no copies are available or the member already has an
active loan for the book, otherwise create the loan and decrement
`available_copies`.  Returns the new state, the pk of the created loan and
the created loan itself. -/
def executeCheckout (db : DB) (member bookPk : Nat) :
    Except DjangoError (DB × Nat × Loan) :=
  match lookupBook db bookPk with
  | none => .error .doesNotExist
  | some book =>
    if book.availableCopies ≤ 0 then
      .error (.valueError "No copies currently available.")
    else if hasActiveLoan db member bookPk then
      .error (.valueError "This member already has an active loan for this book.")
    else
      let loan : Loan :=
        { memberId := member, bookId := bookPk, checkedOutAt := db.now,
          returnedAt := none, isActive := true }
      let book' := { book with availableCopies := book.availableCopies - 1 }
      let db' :=
        { db with
          loans := db.loans ++ [(db.nextLoanPk, loan)],
          nextLoanPk := db.nextLoanPk + 1,
          books := setTbl db.books bookPk book' }
      .ok (db', db.nextLoanPk, loan)

/-- Does a loan row match the `.get(pk=…, is_active=True, **scope_filter)`
lookup of `_execute_return`?  `scope` models the optional
member-restriction (`member=request.user`) filter. -/
def loanMatches (loan : Loan) (scope : Option Nat) : Bool :=
  loan.isActive && (match scope with
    | none => true
    | some m => loan.memberId = m)

/-- `views._execute_return(loan_pk, scope_filter=…)`: fetch the matching
active loan (raising `Loan.DoesNotExist` otherwise) and its book under
lock, deactivate the loan, stamp `returned_at`, and increment the
`available_copies` of its book.  Returns the new state and the deactivated
loan. -/
def executeReturn (db : DB) (loanPk : Nat) (scope : Option Nat) :
    Except DjangoError (DB × Loan) :=
  match lookupLoan db loanPk with
  | none => .error .doesNotExist
  | some loan =>
    if loanMatches loan scope then
      match lookupBook db loan.bookId with
      | none => .error .doesNotExist
      | some book =>
        let loan' := { loan with isActive := false, returnedAt := some db.now }
        let book' := { book with availableCopies := book.availableCopies + 1 }
        let db' :=
          { db with
            loans := setTbl db.loans loanPk loan',
            books := setTbl db.books loan.bookId book' }
        .ok (db', loan')
    else .error .doesNotExist

/-- The outcome of a request, as far as state-relevant behaviour goes:
`Http404`, a redirect carrying an error message, or a success
redirect. -/
inductive HttpResult where
  | notFound
  | errorRedirect (msg : String)
  | formInvalid
  | success
deriving Repr, DecidableEq

/-- `views.book_checkout_view` (POST branch): run `_execute_checkout`
inside `transaction.atomic()`; `Book.DoesNotExist` becomes 404,
`ValueError` becomes a redirect with the error message; on every
failure the transaction rolls back, so the state is unchanged. -/
def bookCheckoutView (db : DB) (member bookPk : Nat) : DB × HttpResult :=
  match executeCheckout db member bookPk with
  | .error .doesNotExist => (db, .notFound)
  | .error (.valueError msg) => (db, .errorRedirect msg)
  | .ok (db', _, _) => (db', .success)

/-- `views.loan_return_view` (POST branch): `_execute_return` scoped to
the requesting member; `Loan.DoesNotExist` becomes 404. -/
def loanReturnView (db : DB) (member loanPk : Nat) : DB × HttpResult :=
  match executeReturn db loanPk (some member) with
  | .error _ => (db, .notFound)
  | .ok (db', _) => (db', .success)

/-- `views.StaffForceReturnView.post`: `_execute_return` with no scope
filter. -/
def staffForceReturnView (db : DB) (loanPk : Nat) : DB × HttpResult :=
  match executeReturn db loanPk none with
  | .error _ => (db, .notFound)
  | .ok (db', _) => (db', .success)

/-- The fields `forms.BookForm` exposes (`title`, `author`, `isbn`,
`genres`, `total_copies`, `available_copies`). -/
structure BookFormData where
  title : String
  author : String
  isbn : Option String
  genres : List Nat
  totalCopies : Nat
  availableCopies : Nat
deriving Repr, DecidableEq

/-- `BookForm` validation: the `clean()` rule
`available_copies ≤ total_copies`, plus the model-level unique-`isbn`
check (skipped for a null isbn, and excluding the edited row
itself). -/
def bookFormValid (db : DB) (excludePk : Option Nat) (d : BookFormData) : Bool :=
  decide (d.availableCopies ≤ d.totalCopies) &&
  (match d.isbn with
   | none => true
   | some s =>
     !(db.books.any fun e =>
        (match excludePk with
         | none => true
         | some pk => !(e.1 = pk : Bool)) && e.2.isbn = some s))

/-- `views.StaffBookCreateView`: validate the form and insert the new
book at the next pk; an invalid form re-renders and changes nothing. -/
def staffBookCreateView (db : DB) (d : BookFormData) : DB × HttpResult :=
  if bookFormValid db none d then
    let b : Book :=
      { title := d.title, author := d.author, isbn := d.isbn,
        genres := d.genres, totalCopies := d.totalCopies,
        availableCopies := d.availableCopies, addedAt := db.now }
    ({ db with books := db.books ++ [(db.nextBookPk, b)],
               nextBookPk := db.nextBookPk + 1 }, .success)
  else
    (db, .formInvalid)

/-- `views.StaffBookUpdateView`: 404 on a missing book, otherwise
validate the form and overwrite the form fields on the row
(`added_at` is not a form field and is kept). -/
def staffBookUpdateView (db : DB) (pk : Nat) (d : BookFormData) : DB × HttpResult :=
  match lookupBook db pk with
  | none => (db, .notFound)
  | some book =>
    if bookFormValid db (some pk) d then
      let b' : Book :=
        { book with
          title := d.title, author := d.author, isbn := d.isbn,
          genres := d.genres, totalCopies := d.totalCopies,
          availableCopies := d.availableCopies }
      ({ db with books := setTbl db.books pk b' }, .success)
    else
      (db, .formInvalid)

/-- `views.StaffBookDeleteView.form_valid`: 404 on a missing book;
refuse (state unchanged) when the book has active loans; otherwise
delete the book, its loans going with it via the `CASCADE` foreign
key. -/
def staffBookDeleteView (db : DB) (pk : Nat) : DB × HttpResult :=
  match lookupBook db pk with
  | none => (db, .notFound)
  | some _ =>
    if hasActiveBookLoan db pk then
      (db, .errorRedirect "Cannot delete this book — it has active loans.")
    else
      ({ db with books := eraseTbl db.books pk,
                 loans := dropLoansOfBook db.loans pk }, .success)

/-- The state-changing requests the application exposes.  `checkout`
covers both `book_checkout_view` and `StaffLoanAssignView` (both call
`_execute_checkout` in a transaction and leave the state unchanged on
failure); the two return endpoints differ only in the scope filter. -/
inductive Op where
  | checkout (member bookPk : Nat)
  | memberReturn (member loanPk : Nat)
  | forceReturn (loanPk : Nat)
  | createBook (d : BookFormData)
  | updateBook (pk : Nat) (d : BookFormData)
  | deleteBook (pk : Nat)
deriving Repr, DecidableEq

/-- One request against the state; the logical clock advances once per
request. -/
def step (db : DB) (op : Op) : DB :=
  let db' :=
    match op with
    | .checkout m bpk => (bookCheckoutView db m bpk).1
    | .memberReturn m lpk => (loanReturnView db m lpk).1
    | .forceReturn lpk => (staffForceReturnView db lpk).1
    | .createBook d => (staffBookCreateView db d).1
    | .updateBook pk d => (staffBookUpdateView db pk d).1
    | .deleteBook pk => (staffBookDeleteView db pk).1
  { db' with now := db.now + 1 }

/-- The state after a sequence of requests from the empty database. -/
def run (ops : List Op) : DB := ops.foldl step initDB

/-- The copy-count consistency relation for one book pk (spec glossary:
available copies = copies not currently on loan): `available_copies`
equals `total_copies` minus the number of active loan rows for the
book. -/
def bookConsistent (db : DB) (pk : Nat) : Prop :=
  ∀ book, lookupBook db pk = some book →
    (book.availableCopies : ℤ) =
      (book.totalCopies : ℤ) - (activeBookLoanCount db pk : ℤ)

/-- Number of active `Loan` rows for a given (member, book) pair. -/
def activeMemberBookCount (db : DB) (member bookPk : Nat) : Nat :=
  db.loans.countP fun e =>
    e.2.memberId = member && e.2.bookId = bookPk && e.2.isActive

/-- Is this request a staff edit of a book row (`StaffBookUpdateView`)? -/
def Op.isBookUpdate : Op → Bool
  | .updateBook _ _ => true
  | _ => false

/-- Form data for a book with one copy, used in concrete scenarios. -/
def fdOne : BookFormData :=
  { title := "T", author := "A", isbn := none, genres := [],
    totalCopies := 1, availableCopies := 1 }

/-- Form data for a book with three copies, used in concrete scenarios. -/
def fdThree : BookFormData :=
  { title := "T", author := "A", isbn := none, genres := [],
    totalCopies := 3, availableCopies := 3 }

/-- Decidable check that every book row satisfies
`available_copies ≤ total_copies`. -/
def booksWithinTotal (db : DB) : Bool :=
  db.books.all fun e => e.2.availableCopies ≤ e.2.totalCopies

/-- The book row of the concrete scenarios, with given copy counts. -/
def bkT (avail total : Nat) : Book :=
  { title := "T", author := "A", isbn := none, genres := [],
    totalCopies := total, availableCopies := avail, addedAt := 0 }

/-- Loan row of the concrete scenarios: member 7, book 1, checked out
at time 1. -/
def loanT (active : Bool) (ret : Option Nat) : Loan :=
  { memberId := 7, bookId := 1, checkedOutAt := 1,
    returnedAt := ret, isActive := active }

/-- What a successful checkout leaves behind: exactly one new active
loan row for the (member, book) pair appended to the loan table, the
`available_copies` of that book decremented by exactly one, every other
book row untouched. -/
def CheckoutSuccessPost (db : DB) (member bookPk : Nat) (book : Book) : Prop :=
  ∃ db' lpk loan,
    executeCheckout db member bookPk = .ok (db', lpk, loan) ∧
    loan.memberId = member ∧ loan.bookId = bookPk ∧ loan.isActive = true ∧
    loan.returnedAt = none ∧ loan.checkedOutAt = db.now ∧
    db'.loans = db.loans ++ [(lpk, loan)] ∧
    lookupBook db' bookPk =
      some { book with availableCopies := book.availableCopies - 1 } ∧
    ∀ pk, pk ≠ bookPk → lookupBook db' pk = lookupBook db pk

/-- What a successful return leaves behind: the loan row deactivated
with its return timestamp set, the `available_copies` of its book
incremented by exactly one, all other rows untouched. -/
def ReturnSuccessPost (db : DB) (loanPk : Nat) (scope : Option Nat)
    (loan : Loan) (book : Book) : Prop :=
  ∃ db' loan',
    executeReturn db loanPk scope = .ok (db', loan') ∧
    loan' = { loan with isActive := false, returnedAt := some db.now } ∧
    lookupLoan db' loanPk = some loan' ∧
    lookupBook db' loan.bookId =
      some { book with availableCopies := book.availableCopies + 1 } ∧
    (∀ pk, pk ≠ loan.bookId → lookupBook db' pk = lookupBook db pk) ∧
    (∀ pk, pk ≠ loanPk → lookupLoan db' pk = lookupLoan db pk)

/-- The three business reasons `_execute_checkout` can fail: missing
book, no available copies, duplicate active loan. -/
def CheckoutFails (db : DB) (member bookPk : Nat) : Prop :=
  lookupBook db bookPk = none ∨
  (∃ book, lookupBook db bookPk = some book ∧ book.availableCopies = 0) ∨
  hasActiveLoan db member bookPk = true

/-- Structural invariant used for the copy-bound argument: pks of book
rows are below the auto-increment counter, loans reference only pks
below it, and every book satisfies
`available_copies + number of active loans ≤ total_copies`. -/
def GoodState (db : DB) : Prop :=
  (∀ e ∈ db.books, e.1 < db.nextBookPk) ∧
  (∀ e ∈ db.loans, e.2.bookId < db.nextBookPk) ∧
  (∀ pk book, lookupBook db pk = some book →
    book.availableCopies + activeBookLoanCount db pk ≤ book.totalCopies)

/-- Structural invariant on the loan table: loan pks are pairwise
distinct and below the auto-increment counter. -/
def LoanKeysOK (db : DB) : Prop :=
  (db.loans.map Prod.fst).Nodup ∧ ∀ e ∈ db.loans, e.1 < db.nextLoanPk

section TableLemmas

variable {α : Type}

theorem lookupTbl_setTbl_self (t : List (Nat × α)) (pk : Nat) (v v' : α)
    (h : lookupTbl t pk = some v) : lookupTbl (setTbl t pk v') pk = some v' := by
  induction t with
  | nil => simp [lookupTbl] at h
  | cons e rest ih =>
    by_cases he : e.1 = pk
    · simp [lookupTbl, setTbl, he]
    · simp only [lookupTbl, setTbl, he, if_false] at h ⊢
      exact ih h

theorem lookupTbl_setTbl_ne (t : List (Nat × α)) (pk pk' : Nat) (v : α)
    (h : pk' ≠ pk) : lookupTbl (setTbl t pk v) pk' = lookupTbl t pk' := by
  induction t with
  | nil => simp [setTbl]
  | cons e rest ih =>
    by_cases he : e.1 = pk
    · have hne : ¬ pk = pk' := fun hc => h hc.symm
      simp [setTbl, lookupTbl, he, hne]
    · simp only [setTbl, he, if_false, lookupTbl]
      by_cases he' : e.1 = pk'
      · simp [he']
      · simp [he', ih]

theorem setTbl_of_lookup_none (t : List (Nat × α)) (pk : Nat) (v : α)
    (h : lookupTbl t pk = none) : setTbl t pk v = t := by
  induction t with
  | nil => simp [setTbl]
  | cons e rest ih =>
    by_cases he : e.1 = pk
    · simp [lookupTbl, he] at h
    · simp only [lookupTbl, he, if_false] at h
      simp [setTbl, he, ih h]

theorem lookupTbl_append_some (t₁ t₂ : List (Nat × α)) (pk : Nat) (v : α)
    (h : lookupTbl t₁ pk = some v) : lookupTbl (t₁ ++ t₂) pk = some v := by
  induction t₁ with
  | nil => simp [lookupTbl] at h
  | cons e rest ih =>
    by_cases he : e.1 = pk
    · simp only [lookupTbl, he, if_true] at h
      simp [lookupTbl, he, h]
    · simp only [lookupTbl, he, if_false] at h ⊢
      exact ih h

theorem lookupTbl_append_none (t₁ t₂ : List (Nat × α)) (pk : Nat)
    (h : lookupTbl t₁ pk = none) : lookupTbl (t₁ ++ t₂) pk = lookupTbl t₂ pk := by
  induction t₁ with
  | nil => simp
  | cons e rest ih =>
    by_cases he : e.1 = pk
    · simp [lookupTbl, he] at h
    · simp only [lookupTbl, he, if_false] at h ⊢
      exact ih h

theorem lookupTbl_eraseTbl_self (t : List (Nat × α)) (pk : Nat) :
    lookupTbl (eraseTbl t pk) pk = none := by
  induction t with
  | nil => simp [eraseTbl, lookupTbl]
  | cons e rest ih =>
    by_cases he : e.1 = pk
    · simp [eraseTbl, he, ih]
    · simp [eraseTbl, lookupTbl, he, ih]

theorem lookupTbl_eraseTbl_ne (t : List (Nat × α)) (pk pk' : Nat)
    (h : pk' ≠ pk) : lookupTbl (eraseTbl t pk) pk' = lookupTbl t pk' := by
  induction t with
  | nil => simp [eraseTbl]
  | cons e rest ih =>
    by_cases he : e.1 = pk
    · have hne : ¬ pk = pk' := fun hc => h hc.symm
      simp [eraseTbl, lookupTbl, he, hne, ih]
    · simp only [eraseTbl, he, if_false, lookupTbl]
      by_cases he' : e.1 = pk'
      · simp [he']
      · simp [he', ih]

theorem eraseTbl_sublist (t : List (Nat × α)) (pk : Nat) :
    List.Sublist (eraseTbl t pk) t := by
  induction t with
  | nil => simp [eraseTbl]
  | cons e rest ih =>
    by_cases he : e.1 = pk
    · simpa [eraseTbl, he] using ih.cons e
    · simpa [eraseTbl, he] using ih.cons₂ e

theorem mem_eraseTbl (t : List (Nat × α)) (pk : Nat) (e : Nat × α) :
    e ∈ eraseTbl t pk ↔ e ∈ t ∧ ¬ e.1 = pk := by
  induction t with
  | nil => simp [eraseTbl]
  | cons a rest ih =>
    by_cases ha : a.1 = pk
    · simp only [eraseTbl, ha, if_true, List.mem_cons, ih]
      constructor
      · rintro ⟨hm, hn⟩; exact ⟨Or.inr hm, hn⟩
      · rintro ⟨hm | hm, hn⟩
        · exact absurd (hm ▸ ha) hn
        · exact ⟨hm, hn⟩
    · simp only [eraseTbl, ha, if_false, List.mem_cons, ih]
      constructor
      · rintro (rfl | ⟨hm, hn⟩)
        · exact ⟨Or.inl rfl, ha⟩
        · exact ⟨Or.inr hm, hn⟩
      · rintro ⟨hm | hm, hn⟩
        · exact Or.inl hm
        · exact Or.inr ⟨hm, hn⟩

end TableLemmas

theorem dropLoansOfBook_sublist (t : List (Nat × Loan)) (bpk : Nat) :
    List.Sublist (dropLoansOfBook t bpk) t := by
  induction t with
  | nil => simp [dropLoansOfBook]
  | cons e rest ih =>
    by_cases he : e.2.bookId = bpk
    · simpa [dropLoansOfBook, he] using ih.cons e
    · simpa [dropLoansOfBook, he] using ih.cons₂ e

theorem mem_dropLoansOfBook (t : List (Nat × Loan)) (bpk : Nat) (e : Nat × Loan) :
    e ∈ dropLoansOfBook t bpk ↔ e ∈ t ∧ ¬ e.2.bookId = bpk := by
  induction t with
  | nil => simp [dropLoansOfBook]
  | cons a rest ih =>
    by_cases ha : a.2.bookId = bpk
    · simp only [dropLoansOfBook, ha, if_true, List.mem_cons, ih]
      constructor
      · rintro ⟨hm, hn⟩; exact ⟨Or.inr hm, hn⟩
      · rintro ⟨hm | hm, hn⟩
        · exact absurd (hm ▸ ha) hn
        · exact ⟨hm, hn⟩
    · simp only [dropLoansOfBook, ha, if_false, List.mem_cons, ih]
      constructor
      · rintro (rfl | ⟨hm, hn⟩)
        · exact ⟨Or.inl rfl, ha⟩
        · exact ⟨Or.inr hm, hn⟩
      · rintro ⟨hm | hm, hn⟩
        · exact Or.inl hm
        · exact Or.inr ⟨hm, hn⟩

theorem lookupTbl_dropLoansOfBook (t : List (Nat × Loan)) (bpk lpk : Nat)
    (loan : Loan) (h : lookupTbl t lpk = some loan) (hb : ¬ loan.bookId = bpk) :
    lookupTbl (dropLoansOfBook t bpk) lpk = some loan := by
  induction t with
  | nil => simp [lookupTbl] at h
  | cons e rest ih =>
    by_cases he : e.1 = lpk
    · simp only [lookupTbl, he, if_true, Option.some.injEq] at h
      subst h
      simp [dropLoansOfBook, hb, lookupTbl, he]
    · simp only [lookupTbl, he, if_false] at h
      by_cases hd : e.2.bookId = bpk
      · simp [dropLoansOfBook, hd, ih h]
      · simp [dropLoansOfBook, hd, lookupTbl, he, ih h]

section CountLemmas

variable {α : Type}

theorem countP_setTbl_minus (p : Nat × α → Bool) (t : List (Nat × α))
    (pk : Nat) (v v' : α) (hfind : lookupTbl t pk = some v)
    (hv : p (pk, v) = true) (hv' : p (pk, v') = false) :
    (setTbl t pk v').countP p + 1 = t.countP p := by
  induction t with
  | nil => simp [lookupTbl] at hfind
  | cons e rest ih =>
    by_cases he : e.1 = pk
    · simp only [lookupTbl, he, if_true, Option.some.injEq] at hfind
      have heq : e = (pk, v) := by
        cases e with
        | mk k w => simp only at he hfind; rw [he, hfind]
      subst heq
      simp [setTbl, List.countP_cons, hv, hv']
    · simp only [lookupTbl, he, if_false] at hfind
      simp only [setTbl, he, if_false, List.countP_cons]
      have := ih hfind
      omega

theorem countP_setTbl_congr (p : Nat × α → Bool) (t : List (Nat × α))
    (pk : Nat) (v v' : α) (hfind : lookupTbl t pk = some v)
    (hpv : p (pk, v) = p (pk, v')) :
    (setTbl t pk v').countP p = t.countP p := by
  induction t with
  | nil => simp [setTbl]
  | cons e rest ih =>
    by_cases he : e.1 = pk
    · simp only [lookupTbl, he, if_true, Option.some.injEq] at hfind
      have heq : e = (pk, v) := by
        cases e with
        | mk k w => simp only at he hfind; rw [he, hfind]
      subst heq
      simp [setTbl, List.countP_cons, hpv]
    · simp only [lookupTbl, he, if_false] at hfind
      simp [setTbl, he, List.countP_cons, ih hfind]

theorem countP_setTbl_le (p : Nat × α → Bool) (t : List (Nat × α))
    (pk : Nat) (v' : α) (hv' : p (pk, v') = false) :
    (setTbl t pk v').countP p ≤ t.countP p := by
  induction t with
  | nil => simp [setTbl]
  | cons e rest ih =>
    by_cases he : e.1 = pk
    · simp [setTbl, he, List.countP_cons, hv']
    · simp only [setTbl, he, if_false, List.countP_cons]
      have := ih
      omega

end CountLemmas

section MoreTableLemmas

variable {α : Type}

theorem lookupTbl_mem (t : List (Nat × α)) (pk : Nat) (v : α)
    (h : lookupTbl t pk = some v) : (pk, v) ∈ t := by
  induction t with
  | nil => simp [lookupTbl] at h
  | cons e rest ih =>
    by_cases he : e.1 = pk
    · simp only [lookupTbl, he, if_true, Option.some.injEq] at h
      have heq : e = (pk, v) := by
        cases e with
        | mk k w => simp only at he h; rw [he, h]
      rw [heq]
      exact List.mem_cons_self _ _
    · simp only [lookupTbl, he, if_false] at h
      exact List.mem_cons_of_mem _ (ih h)

theorem lookupTbl_eq_none_of_not_mem_keys (t : List (Nat × α)) (pk : Nat)
    (h : pk ∉ t.map Prod.fst) : lookupTbl t pk = none := by
  induction t with
  | nil => simp [lookupTbl]
  | cons e rest ih =>
    simp only [List.map_cons, List.mem_cons, not_or] at h
    have he : ¬ e.1 = pk := fun hc => h.1 hc.symm
    simp only [lookupTbl, he, if_false]
    exact ih h.2

theorem setTbl_keys (t : List (Nat × α)) (pk : Nat) (v : α) :
    (setTbl t pk v).map Prod.fst = t.map Prod.fst := by
  induction t with
  | nil => simp [setTbl]
  | cons e rest ih =>
    by_cases he : e.1 = pk
    · simp [setTbl, he]
    · simp [setTbl, he, ih]

theorem mem_setTbl (t : List (Nat × α)) (pk : Nat) (v : α) (e : Nat × α)
    (h : e ∈ setTbl t pk v) : e ∈ t ∨ e = (pk, v) := by
  induction t with
  | nil => simp [setTbl] at h
  | cons a rest ih =>
    by_cases ha : a.1 = pk
    · simp only [setTbl, ha, if_true, List.mem_cons] at h
      rcases h with rfl | h
      · exact Or.inr rfl
      · exact Or.inl (List.mem_cons_of_mem _ h)
    · simp only [setTbl, ha, if_false, List.mem_cons] at h
      rcases h with rfl | h
      · exact Or.inl (List.mem_cons_self _ _)
      · rcases ih h with hm | hm
        · exact Or.inl (List.mem_cons_of_mem _ hm)
        · exact Or.inr hm

theorem lookupTbl_dropLoansOfBook_none (t : List (Nat × Loan)) (dpk lpk : Nat)
    (h : lookupTbl t lpk = none) :
    lookupTbl (dropLoansOfBook t dpk) lpk = none := by
  induction t with
  | nil => simp [dropLoansOfBook, lookupTbl]
  | cons e rest ih =>
    by_cases he : e.1 = lpk
    · simp [lookupTbl, he] at h
    · simp only [lookupTbl, he, if_false] at h
      by_cases hd : e.2.bookId = dpk
      · simp [dropLoansOfBook, hd, ih h]
      · simp [dropLoansOfBook, hd, lookupTbl, he, ih h]

theorem lookupTbl_dropLoansOfBook_dropped (t : List (Nat × Loan)) (dpk lpk : Nat)
    (loan : Loan) (hnd : (t.map Prod.fst).Nodup)
    (h : lookupTbl t lpk = some loan) (hb : loan.bookId = dpk) :
    lookupTbl (dropLoansOfBook t dpk) lpk = none := by
  induction t with
  | nil => simp [lookupTbl] at h
  | cons e rest ih =>
    simp only [List.map_cons, List.nodup_cons] at hnd
    by_cases he : e.1 = lpk
    · simp only [lookupTbl, he, if_true, Option.some.injEq] at h
      have hrest : lookupTbl rest lpk = none := by
        apply lookupTbl_eq_none_of_not_mem_keys
        rw [← he]; exact hnd.1
      have hdrop : e.2.bookId = dpk := by rw [h, hb]
      simp only [dropLoansOfBook, hdrop, if_true]
      exact lookupTbl_dropLoansOfBook_none rest dpk lpk hrest
    · simp only [lookupTbl, he, if_false] at h
      by_cases hd : e.2.bookId = dpk
      · simp [dropLoansOfBook, hd, ih hnd.2 h]
      · simp [dropLoansOfBook, hd, lookupTbl, he, ih hnd.2 h]

theorem countP_dropLoansOfBook (t : List (Nat × Loan)) (bpk : Nat)
    (p : Nat × Loan → Bool) (h : ∀ e, p e = true → ¬ e.2.bookId = bpk) :
    (dropLoansOfBook t bpk).countP p = t.countP p := by
  induction t with
  | nil => simp [dropLoansOfBook]
  | cons e rest ih =>
    by_cases hd : e.2.bookId = bpk
    · have hp : p e = false := by
        cases hpe : p e with
        | false => rfl
        | true => exact absurd hd (h e hpe)
      simp [dropLoansOfBook, hd, List.countP_cons, hp, ih]
    · simp [dropLoansOfBook, hd, List.countP_cons, ih]

end MoreTableLemmas

theorem loanMatches_isActive (loan : Loan) (scope : Option Nat)
    (h : loanMatches loan scope = true) : loan.isActive = true := by
  unfold loanMatches at h
  simp only [Bool.and_eq_true] at h
  exact h.1

/-- Inversion of a successful `_execute_checkout`: recover the guards
that must have held and the exact shape of the new state. -/
theorem executeCheckout_ok (db : DB) (member bookPk : Nat) (db' : DB)
    (lpk : Nat) (loan : Loan)
    (h : executeCheckout db member bookPk = .ok (db', lpk, loan)) :
    ∃ book, lookupBook db bookPk = some book ∧ 0 < book.availableCopies ∧
      hasActiveLoan db member bookPk = false ∧
      loan = { memberId := member, bookId := bookPk, checkedOutAt := db.now,
               returnedAt := none, isActive := true } ∧
      lpk = db.nextLoanPk ∧
      db' = { db with
        loans := db.loans ++ [(lpk, loan)],
        nextLoanPk := db.nextLoanPk + 1,
        books := setTbl db.books bookPk
          { book with availableCopies := book.availableCopies - 1 } } := by
  unfold executeCheckout at h
  cases hb : lookupBook db bookPk with
  | none => rw [hb] at h; exact absurd h (by simp)
  | some book =>
    rw [hb] at h
    by_cases hav : book.availableCopies ≤ 0
    · simp only [hav, if_true] at h
      exact absurd h (by simp)
    · simp only [hav, if_false] at h
      cases hdup : hasActiveLoan db member bookPk with
      | true => rw [hdup] at h; exact absurd h (by simp)
      | false =>
        rw [hdup] at h
        simp only [Bool.false_eq_true, if_false, Except.ok.injEq,
          Prod.mk.injEq] at h
        obtain ⟨hdb, hlpk, hloan⟩ := h
        refine ⟨book, rfl, by omega, rfl, hloan.symm, hlpk.symm, ?_⟩
        rw [← hdb, ← hlpk, ← hloan]

/-- Inversion of a successful `_execute_return`: recover the matching
active loan, its book, and the exact shape of the new state. -/
theorem executeReturn_ok (db : DB) (loanPk : Nat) (scope : Option Nat)
    (db' : DB) (loan' : Loan)
    (h : executeReturn db loanPk scope = .ok (db', loan')) :
    ∃ loan book, lookupLoan db loanPk = some loan ∧
      loanMatches loan scope = true ∧
      lookupBook db loan.bookId = some book ∧
      loan' = { loan with isActive := false, returnedAt := some db.now } ∧
      db' = { db with
        loans := setTbl db.loans loanPk loan',
        books := setTbl db.books loan.bookId
          { book with availableCopies := book.availableCopies + 1 } } := by
  unfold executeReturn at h
  cases hl : lookupLoan db loanPk with
  | none => rw [hl] at h; exact absurd h (by simp)
  | some loan =>
    rw [hl] at h
    cases hm : loanMatches loan scope with
    | false => simp [hm] at h
    | true =>
      simp only [hm, if_true] at h
      cases hb : lookupBook db loan.bookId with
      | none => rw [hb] at h; exact absurd h (by simp)
      | some book =>
        rw [hb] at h
        simp only [Except.ok.injEq, Prod.mk.injEq] at h
        obtain ⟨hdb, hloan⟩ := h
        refine ⟨loan, book, rfl, hm, hb, hloan.symm, ?_⟩
        rw [← hdb, ← hloan]

/-- The success path of `_execute_checkout`, computed explicitly. -/
theorem executeCheckout_succeeds (db : DB) (member bookPk : Nat) (book : Book)
    (hb : lookupBook db bookPk = some book)
    (hav : ¬ book.availableCopies ≤ 0)
    (hdup : hasActiveLoan db member bookPk = false) :
    executeCheckout db member bookPk = .ok
      ({ db with
          loans := db.loans ++ [(db.nextLoanPk,
            { memberId := member, bookId := bookPk, checkedOutAt := db.now,
              returnedAt := none, isActive := true })],
          nextLoanPk := db.nextLoanPk + 1,
          books := setTbl db.books bookPk
            { book with availableCopies := book.availableCopies - 1 } },
        db.nextLoanPk,
        { memberId := member, bookId := bookPk, checkedOutAt := db.now,
          returnedAt := none, isActive := true }) := by
  simp only [executeCheckout, hb]
  rw [if_neg hav, hdup]
  rfl

/-- The success path of `_execute_return`, computed explicitly. -/
theorem executeReturn_succeeds (db : DB) (loanPk : Nat) (scope : Option Nat)
    (loan : Loan) (book : Book)
    (hl : lookupLoan db loanPk = some loan)
    (hm : loanMatches loan scope = true)
    (hb : lookupBook db loan.bookId = some book) :
    executeReturn db loanPk scope = .ok
      ({ db with
          loans := setTbl db.loans loanPk
            { loan with isActive := false, returnedAt := some db.now },
          books := setTbl db.books loan.bookId
            { book with availableCopies := book.availableCopies + 1 } },
        { loan with isActive := false, returnedAt := some db.now }) := by
  simp only [executeReturn, hl, hm, if_true, hb]

/-- `_execute_return` raises `Loan.DoesNotExist` when no row matches
the lookup. -/
theorem executeReturn_fails (db : DB) (loanPk : Nat) (scope : Option Nat)
    (h : ∀ loan, lookupLoan db loanPk = some loan →
      loanMatches loan scope = false) :
    executeReturn db loanPk scope = .error .doesNotExist := by
  unfold executeReturn
  cases hl : lookupLoan db loanPk with
  | none => rfl
  | some loan => simp [h loan hl]

/-- Invariants preserved by each step hold along every run. -/
theorem foldl_inv (P : DB → Prop) (Q : Op → Prop) (ops : List Op) (db : DB)
    (h : P db) (hops : ∀ op ∈ ops, Q op)
    (hstep : ∀ db op, Q op → P db → P (step db op)) :
    P (ops.foldl step db) := by
  induction ops generalizing db with
  | nil => exact h
  | cons op rest ih =>
    exact ih _ (hstep _ _ (hops op (List.mem_cons_self _ _)) h)
      (fun o ho => hops o (List.mem_cons_of_mem _ ho))

/-- C2: for every member and every existing Book with
`available_copies > 0` for which the member has no active loan, the
checkout operation creates exactly one new Loan linking that member
and book (appended as the single new loan row) and decrements that
book's `available_copies` by exactly 1; check, creation and decrement
happen as one atomic unit, modelled by the single state
`_execute_checkout` returns. -/
theorem checkout_creates_one_loan_and_decrements
    (db : DB) (member bookPk : Nat) (book : Book)
    (hb : lookupBook db bookPk = some book)
    (havail : 0 < book.availableCopies)
    (hdup : hasActiveLoan db member bookPk = false) :
    CheckoutSuccessPost db member bookPk book := by
  have hav : ¬ book.availableCopies ≤ 0 := by omega
  refine ⟨_, _, _, executeCheckout_succeeds db member bookPk book hb hav hdup,
    rfl, rfl, rfl, rfl, rfl, rfl, ?_, ?_⟩
  · exact lookupTbl_setTbl_self _ _ _ _ hb
  · intro pk hpk
    exact lookupTbl_setTbl_ne _ _ _ _ hpk

/-- Witness for `checkout_creates_one_loan_and_decrements` at the
concrete state reached by creating one book with three copies. -/
theorem checkout_creates_one_loan_and_decrements_witness :
    lookupBook (run [Op.createBook fdThree]) 1 = some (bkT 3 3) ∧
    0 < (bkT 3 3).availableCopies ∧
    hasActiveLoan (run [Op.createBook fdThree]) 7 1 = false ∧
    CheckoutSuccessPost (run [Op.createBook fdThree]) 7 1 (bkT 3 3) :=
  ⟨by decide, by decide, by decide,
    checkout_creates_one_loan_and_decrements _ 7 1 _ (by decide) (by decide)
      (by decide)⟩

/-- C3: for every matching active Loan (and its book), the return
operation deactivates the loan, stamps `returned_at`, and increments
the book's `available_copies` by exactly 1, atomically; when no
matching active loan exists it raises `Loan.DoesNotExist`. -/
theorem return_deactivates_loan_and_increments
    (db : DB) (loanPk : Nat) (scope : Option Nat) :
    (∀ loan book, lookupLoan db loanPk = some loan →
      loanMatches loan scope = true →
      lookupBook db loan.bookId = some book →
      ReturnSuccessPost db loanPk scope loan book) ∧
    ((∀ loan, lookupLoan db loanPk = some loan →
        loanMatches loan scope = false) →
      executeReturn db loanPk scope = .error .doesNotExist) := by
  constructor
  · intro loan book hl hm hb
    refine ⟨_, _, executeReturn_succeeds db loanPk scope loan book hl hm hb,
      rfl, ?_, ?_, ?_, ?_⟩
    · exact lookupTbl_setTbl_self _ _ _ _ hl
    · exact lookupTbl_setTbl_self _ _ _ _ hb
    · intro pk hpk
      exact lookupTbl_setTbl_ne _ _ _ _ hpk
    · intro pk hpk
      exact lookupTbl_setTbl_ne _ _ _ _ hpk
  · exact executeReturn_fails db loanPk scope

/-- Witness for `return_deactivates_loan_and_increments` at the state
reached by creating a book and checking it out. -/
theorem return_deactivates_loan_and_increments_witness :
    lookupLoan (run [Op.createBook fdThree, Op.checkout 7 1]) 1 =
      some (loanT true none) ∧
    loanMatches (loanT true none) (some 7) = true ∧
    lookupBook (run [Op.createBook fdThree, Op.checkout 7 1])
      (loanT true none).bookId = some (bkT 2 3) ∧
    ReturnSuccessPost (run [Op.createBook fdThree, Op.checkout 7 1]) 1
      (some 7) (loanT true none) (bkT 2 3) :=
  ⟨by decide, by decide, by decide,
    (return_deactivates_loan_and_increments
      (run [Op.createBook fdThree, Op.checkout 7 1]) 1 (some 7)).1
      (loanT true none) (bkT 2 3) (by decide) (by decide) (by decide)⟩

/-- C4: checkout fails exactly when the book does not exist
(`Book.DoesNotExist`), its `available_copies` is 0 (`ValueError` with
the no-copies message), or the member already has an active loan for
it (`ValueError`); and on every failure `book_checkout_view` leaves
the state unchanged. -/
theorem checkout_failure_modes (db : DB) (member bookPk : Nat) :
    (isErr (executeCheckout db member bookPk) = true ↔
      CheckoutFails db member bookPk) ∧
    (lookupBook db bookPk = none →
      executeCheckout db member bookPk = .error .doesNotExist) ∧
    (∀ book, lookupBook db bookPk = some book → book.availableCopies = 0 →
      executeCheckout db member bookPk =
        .error (.valueError "No copies currently available.")) ∧
    (∀ book, lookupBook db bookPk = some book → 0 < book.availableCopies →
      hasActiveLoan db member bookPk = true →
      executeCheckout db member bookPk =
        .error (.valueError "This member already has an active loan for this book.")) ∧
    (isErr (executeCheckout db member bookPk) = true →
      (bookCheckoutView db member bookPk).1 = db) := by
  have hview : ∀ err : DjangoError,
      executeCheckout db member bookPk = .error err →
      (bookCheckoutView db member bookPk).1 = db := by
    intro err herr
    unfold bookCheckoutView
    rw [herr]
    cases err <;> rfl
  cases hb : lookupBook db bookPk with
  | none =>
    have hrun : executeCheckout db member bookPk = .error .doesNotExist := by
      unfold executeCheckout
      rw [hb]
    refine ⟨⟨fun _ => Or.inl hb, fun _ => by rw [hrun]; rfl⟩,
      fun _ => hrun, ?_, ?_, fun _ => hview _ hrun⟩
    · intro book hbk
      cases hbk
    · intro book hbk
      cases hbk
  | some book =>
    by_cases hav : book.availableCopies ≤ 0
    · have hz : book.availableCopies = 0 := by omega
      have hrun : executeCheckout db member bookPk =
          .error (.valueError "No copies currently available.") := by
        simp only [executeCheckout, hb]
        rw [if_pos hav]
      refine ⟨⟨fun _ => Or.inr (Or.inl ⟨book, hb, hz⟩),
        fun _ => by rw [hrun]; rfl⟩, ?_, fun _ _ _ => hrun, ?_,
        fun _ => hview _ hrun⟩
      · intro h1
        cases h1
      · intro bk hbk h0 _
        injection hbk with he
        rw [← he] at h0
        omega
    · by_cases hdup : hasActiveLoan db member bookPk = true
      · have hrun : executeCheckout db member bookPk =
            .error (.valueError
              "This member already has an active loan for this book.") := by
          simp only [executeCheckout, hb]
          rw [if_neg hav, hdup]
          rfl
        refine ⟨⟨fun _ => Or.inr (Or.inr hdup),
          fun _ => by rw [hrun]; rfl⟩, ?_, ?_, fun _ _ _ _ => hrun,
          fun _ => hview _ hrun⟩
        · intro h1
          cases h1
        · intro bk hbk h0
          injection hbk with he
          rw [← he] at h0
          omega
      · have hdup' : hasActiveLoan db member bookPk = false := by
          cases h : hasActiveLoan db member bookPk
          · rfl
          · exact absurd h hdup
        have hrun := executeCheckout_succeeds db member bookPk book hb hav hdup'
        have hnoerr : isErr (executeCheckout db member bookPk) = false := by
          rw [hrun]
          rfl
        refine ⟨⟨?_, ?_⟩, ?_, ?_, ?_, ?_⟩
        · intro hisErr
          rw [hnoerr] at hisErr
          cases hisErr
        · intro hfail
          exfalso
          rcases hfail with h1 | ⟨bk, hbk, h0⟩ | hd
          · rw [hb] at h1
            cases h1
          · rw [hb] at hbk
            injection hbk with he
            rw [← he] at h0
            omega
          · exact hdup hd
        · intro h1
          cases h1
        · intro bk hbk h0
          injection hbk with he
          rw [← he] at h0
          exfalso
          omega
        · intro bk hbk h0 hd
          exact absurd hd hdup
        · intro hisErr
          rw [hnoerr] at hisErr
          cases hisErr

/-- Witness for `checkout_failure_modes`: checking out a missing book
on the empty database raises `Book.DoesNotExist`. -/
theorem checkout_failure_modes_witness :
    lookupBook initDB 1 = none ∧
    executeCheckout initDB 7 1 = .error .doesNotExist :=
  ⟨by decide, (checkout_failure_modes initDB 7 1).2.1 (by decide)⟩

/-- C9: the member-facing return endpoint is scoped to the requesting
member — a missing, inactive, or foreign loan gives
`Loan.DoesNotExist` (rendered 404) with no state change — while the
staff force-return endpoint applies no member scope and returns any
active loan. -/
theorem member_return_scoped_staff_return_unscoped
    (db : DB) (member loanPk : Nat) :
    ((lookupLoan db loanPk = none ∨
      (∃ loan, lookupLoan db loanPk = some loan ∧
        (loan.isActive = false ∨ ¬ loan.memberId = member))) →
      executeReturn db loanPk (some member) = .error .doesNotExist ∧
      loanReturnView db member loanPk = (db, .notFound)) ∧
    (∀ loan book, lookupLoan db loanPk = some loan → loan.isActive = true →
      lookupBook db loan.bookId = some book →
      ∃ db' loan', executeReturn db loanPk none = .ok (db', loan') ∧
        staffForceReturnView db loanPk = (db', .success)) := by
  constructor
  · intro hcase
    have herr : executeReturn db loanPk (some member) = .error .doesNotExist := by
      apply executeReturn_fails
      intro loan hl
      rcases hcase with hnone | ⟨loan2, hl2, hbad⟩
      · rw [hl] at hnone
        cases hnone
      · rw [hl] at hl2
        injection hl2 with he
        rw [← he] at hbad
        unfold loanMatches
        rcases hbad with hia | hmem
        · rw [hia]
          rfl
        · simp [hmem]
    refine ⟨herr, ?_⟩
    unfold loanReturnView
    rw [herr]
  · intro loan book hl hia hb
    have hm : loanMatches loan none = true := by
      unfold loanMatches
      rw [hia]
      rfl
    refine ⟨_, _, executeReturn_succeeds db loanPk none loan book hl hm hb, ?_⟩
    unfold staffForceReturnView
    rw [executeReturn_succeeds db loanPk none loan book hl hm hb]

/-- Witness for `member_return_scoped_staff_return_unscoped`: member 8
cannot return member 7's active loan, while staff force-return can. -/
theorem member_return_scoped_staff_return_unscoped_witness :
    (executeReturn (run [Op.createBook fdThree, Op.checkout 7 1]) 1 (some 8) =
        .error .doesNotExist ∧
      loanReturnView (run [Op.createBook fdThree, Op.checkout 7 1]) 8 1 =
        (run [Op.createBook fdThree, Op.checkout 7 1], .notFound)) ∧
    (∃ db' loan',
      executeReturn (run [Op.createBook fdThree, Op.checkout 7 1]) 1 none =
        .ok (db', loan') ∧
      staffForceReturnView (run [Op.createBook fdThree, Op.checkout 7 1]) 1 =
        (db', .success)) :=
  ⟨(member_return_scoped_staff_return_unscoped
      (run [Op.createBook fdThree, Op.checkout 7 1]) 8 1).1
      (Or.inr ⟨loanT true none, by decide, Or.inr (by decide)⟩),
    (member_return_scoped_staff_return_unscoped
      (run [Op.createBook fdThree, Op.checkout 7 1]) 8 1).2
      (loanT true none) (bkT 2 3) (by decide) (by decide) (by decide)⟩

/-- C10: staff deletion of a book is refused (state unchanged) while
the book has an active loan; with no active loans the book is removed
together with all its loan rows via the cascading foreign key, all
other rows untouched. -/
theorem staff_delete_refused_or_cascades (db : DB) (pk : Nat) (book : Book)
    (hb : lookupBook db pk = some book) :
    (hasActiveBookLoan db pk = true →
      staffBookDeleteView db pk =
        (db, .errorRedirect "Cannot delete this book — it has active loans.")) ∧
    (hasActiveBookLoan db pk = false →
      ∃ db', staffBookDeleteView db pk = (db', .success) ∧
        lookupBook db' pk = none ∧
        (∀ e : Nat × Loan, e ∈ db'.loans ↔ e ∈ db.loans ∧ ¬ e.2.bookId = pk) ∧
        (∀ e : Nat × Book, e ∈ db'.books ↔ e ∈ db.books ∧ ¬ e.1 = pk) ∧
        (∀ pk', pk' ≠ pk → lookupBook db' pk' = lookupBook db pk') ∧
        (∀ lpk loan, lookupLoan db lpk = some loan → ¬ loan.bookId = pk →
          lookupLoan db' lpk = some loan)) := by
  constructor
  · intro hact
    unfold staffBookDeleteView
    rw [hb]
    simp only [hact, if_true]
  · intro hact
    have hrun : staffBookDeleteView db pk =
        ({ db with books := eraseTbl db.books pk,
                   loans := dropLoansOfBook db.loans pk }, .success) := by
      unfold staffBookDeleteView
      rw [hb, hact]
      rfl
    refine ⟨_, hrun, ?_, ?_, ?_, ?_, ?_⟩
    · exact lookupTbl_eraseTbl_self _ _
    · intro e
      exact mem_dropLoansOfBook _ _ _
    · intro e
      exact mem_eraseTbl _ _ _
    · intro pk' hpk
      exact lookupTbl_eraseTbl_ne _ _ _ hpk
    · intro lpk loan hl hnb
      exact lookupTbl_dropLoansOfBook _ _ _ _ hl hnb

/-- Witness for `staff_delete_refused_or_cascades`: deleting the book
while its loan is active is refused. -/
theorem staff_delete_refused_or_cascades_witness :
    hasActiveBookLoan (run [Op.createBook fdThree, Op.checkout 7 1]) 1 = true ∧
    staffBookDeleteView (run [Op.createBook fdThree, Op.checkout 7 1]) 1 =
      (run [Op.createBook fdThree, Op.checkout 7 1],
        .errorRedirect "Cannot delete this book — it has active loans.") :=
  ⟨by decide,
    (staff_delete_refused_or_cascades
      (run [Op.createBook fdThree, Op.checkout 7 1]) 1 (bkT 2 3)
      (by decide)).1 (by decide)⟩

theorem activeBookLoanCount_def (db : DB) (pk : Nat) :
    activeBookLoanCount db pk =
      db.loans.countP (fun e => e.2.bookId = pk && e.2.isActive) := rfl

theorem countBook_append_hit (l : List (Nat × Loan)) (x : Nat × Loan)
    (pk : Nat) (hx : x.2.bookId = pk) (ha : x.2.isActive = true) :
    ((l ++ [x]).countP fun e => e.2.bookId = pk && e.2.isActive) =
    (l.countP fun e => e.2.bookId = pk && e.2.isActive) + 1 := by
  rw [List.countP_append]
  have hone : ([x].countP fun e => e.2.bookId = pk && e.2.isActive) = 1 := by
    simp [List.countP_cons, hx, ha]
  rw [hone]

theorem countBook_append_miss (l : List (Nat × Loan)) (x : Nat × Loan)
    (pk : Nat) (hx : ¬ x.2.bookId = pk) :
    ((l ++ [x]).countP fun e => e.2.bookId = pk && e.2.isActive) =
    (l.countP fun e => e.2.bookId = pk && e.2.isActive) := by
  rw [List.countP_append]
  have hzero : ([x].countP fun e => e.2.bookId = pk && e.2.isActive) = 0 := by
    simp [List.countP_cons, hx]
  rw [hzero]
  rfl

/-- C1: the checkout and return operations preserve the consistency
relation between the copy count and the loan records — after either
operation every book's `available_copies` still equals `total_copies`
minus its number of active loan rows, provided that held before. -/
theorem checkout_return_preserve_copy_consistency (db : DB) (pk : Nat) :
    (∀ member bookPk db' lpk loan,
      executeCheckout db member bookPk = .ok (db', lpk, loan) →
      bookConsistent db pk → bookConsistent db' pk) ∧
    (∀ loanPk scope db' loan',
      executeReturn db loanPk scope = .ok (db', loan') →
      bookConsistent db pk → bookConsistent db' pk) := by
  constructor
  · intro member bookPk db' lpk loan hok hcons
    obtain ⟨book, hb, hav, hdup, hloan, hlpk, hdb⟩ :=
      executeCheckout_ok db member bookPk db' lpk loan hok
    subst hdb
    subst hloan
    subst hlpk
    intro bk hbk
    simp only [lookupBook] at hbk
    rw [activeBookLoanCount_def]
    simp only
    by_cases hpk : pk = bookPk
    · subst hpk
      have hc := hcons book hb
      rw [activeBookLoanCount_def] at hc
      rw [lookupTbl_setTbl_self _ _ _ _ hb] at hbk
      injection hbk with he
      subst he
      have hcnt := countBook_append_hit db.loans
        (db.nextLoanPk,
          { memberId := member, bookId := pk, checkedOutAt := db.now,
            returnedAt := none, isActive := true }) pk rfl rfl
      rw [hcnt]
      dsimp only
      omega
    · rw [lookupTbl_setTbl_ne _ _ _ _ hpk] at hbk
      have hcnt := countBook_append_miss db.loans
        (db.nextLoanPk,
          { memberId := member, bookId := bookPk, checkedOutAt := db.now,
            returnedAt := none, isActive := true }) pk
        (fun hc2 => hpk hc2.symm)
      rw [hcnt]
      have hc := hcons bk hbk
      rw [activeBookLoanCount_def] at hc
      exact hc
  · intro loanPk scope db' loan' hok hcons
    obtain ⟨loan, book, hl, hm, hb, hloan', hdb⟩ :=
      executeReturn_ok db loanPk scope db' loan' hok
    subst hdb
    subst hloan'
    have hia := loanMatches_isActive loan scope hm
    intro bk hbk
    simp only [lookupBook] at hbk
    rw [activeBookLoanCount_def]
    simp only
    by_cases hpk : pk = loan.bookId
    · subst hpk
      have hc := hcons book hb
      rw [activeBookLoanCount_def] at hc
      rw [lookupTbl_setTbl_self _ _ _ _ hb] at hbk
      injection hbk with he
      subst he
      have hcount := countP_setTbl_minus
        (fun e => e.2.bookId = loan.bookId && e.2.isActive) db.loans loanPk loan
        { loan with isActive := false, returnedAt := some db.now }
        hl (by simp [hia]) (by simp)
      dsimp only
      omega
    · rw [lookupTbl_setTbl_ne _ _ _ _ hpk] at hbk
      have hnb : ¬ loan.bookId = pk := fun hc2 => hpk hc2.symm
      have hcount := countP_setTbl_congr
        (fun e => e.2.bookId = pk && e.2.isActive) db.loans loanPk loan
        { loan with isActive := false, returnedAt := some db.now }
        hl (by simp [hnb])
      rw [hcount]
      have hc := hcons bk hbk
      rw [activeBookLoanCount_def] at hc
      exact hc

/-- Witness for `checkout_return_preserve_copy_consistency`: a concrete
checkout from a consistent one-book state stays consistent. -/
theorem checkout_return_preserve_copy_consistency_witness :
    executeCheckout (run [Op.createBook fdThree]) 7 1 = .ok
      ({ books := [(1, bkT 2 3)], loans := [(1, loanT true none)],
         nextBookPk := 2, nextLoanPk := 2, now := 1 }, 1, loanT true none) ∧
    bookConsistent
      { books := [(1, bkT 2 3)], loans := [(1, loanT true none)],
        nextBookPk := 2, nextLoanPk := 2, now := 1 } 1 :=
  ⟨by rfl,
    (checkout_return_preserve_copy_consistency (run [Op.createBook fdThree]) 1).1
      7 1
      { books := [(1, bkT 2 3)], loans := [(1, loanT true none)],
        nextBookPk := 2, nextLoanPk := 2, now := 1 }
      1 (loanT true none) (by rfl)
      (fun b hbb => by
        rw [show lookupBook (run [Op.createBook fdThree]) 1 = some (bkT 3 3)
          from by decide] at hbb
        injection hbb with he
        rw [← he]
        decide)⟩

theorem activeMemberBookCount_eq (db : DB) (m b : Nat) :
    activeMemberBookCount db m b = db.loans.countP
      (fun e => e.2.memberId = m && e.2.bookId = b && e.2.isActive) := rfl

theorem count_zero_of_no_active (db : DB) (m b : Nat)
    (h : hasActiveLoan db m b = false) :
    (db.loans.countP fun e =>
      e.2.memberId = m && e.2.bookId = b && e.2.isActive) = 0 := by
  unfold hasActiveLoan at h
  rw [List.countP_eq_zero]
  intro e he
  rw [List.any_eq_false] at h
  exact h e he

theorem countMB_append (l : List (Nat × Loan)) (x : Nat × Loan) (m b : Nat) :
    ((l ++ [x]).countP fun e =>
      e.2.memberId = m && e.2.bookId = b && e.2.isActive) =
    (l.countP fun e => e.2.memberId = m && e.2.bookId = b && e.2.isActive) +
      (if x.2.memberId = m ∧ x.2.bookId = b ∧ x.2.isActive = true
        then 1 else 0) := by
  rw [List.countP_append]
  congr 1
  simp only [List.countP_cons, List.countP_nil, Nat.zero_add]
  by_cases h1 : x.2.memberId = m
  · by_cases h2 : x.2.bookId = b
    · by_cases h3 : x.2.isActive = true
      · simp [h1, h2, h3]
      · simp [h1, h2, h3]
    · simp [h1, h2]
  · simp [h1]

/-- Each request preserves the bound of one active loan per
(member, book) pair. -/
theorem activeMemberBookCount_step_le (db : DB) (op : Op) (m b : Nat)
    (h : activeMemberBookCount db m b ≤ 1) :
    activeMemberBookCount (step db op) m b ≤ 1 := by
  cases op with
  | checkout m' b' =>
    have hstep : activeMemberBookCount (step db (Op.checkout m' b')) m b
        = activeMemberBookCount (bookCheckoutView db m' b').1 m b := rfl
    rw [hstep]
    cases hc : executeCheckout db m' b' with
    | error e =>
      have hv : (bookCheckoutView db m' b').1 = db := by
        unfold bookCheckoutView
        rw [hc]
        cases e <;> rfl
      rw [hv]
      exact h
    | ok res =>
      obtain ⟨db', lpk, loan⟩ := res
      have hv : (bookCheckoutView db m' b').1 = db' := by
        unfold bookCheckoutView
        rw [hc]
      rw [hv]
      obtain ⟨book, hb, hav, hdup, hloan, hlpk, hdb⟩ :=
        executeCheckout_ok db m' b' db' lpk loan hc
      subst hdb
      subst hloan
      rw [activeMemberBookCount_eq] at h ⊢
      dsimp only
      rw [countMB_append]
      dsimp only
      by_cases h1 : m' = m
      · by_cases h2 : b' = b
        · subst h1
          subst h2
          rw [if_pos ⟨rfl, rfl, rfl⟩]
          rw [count_zero_of_no_active db m' b' hdup]
        · rw [if_neg (fun hx => h2 hx.2.1)]
          omega
      · rw [if_neg (fun hx => h1 hx.1)]
        omega
  | memberReturn m' lpk =>
    have hstep : activeMemberBookCount (step db (Op.memberReturn m' lpk)) m b
        = activeMemberBookCount (loanReturnView db m' lpk).1 m b := rfl
    rw [hstep]
    cases hr : executeReturn db lpk (some m') with
    | error e =>
      have hv : (loanReturnView db m' lpk).1 = db := by
        unfold loanReturnView
        rw [hr]
      rw [hv]
      exact h
    | ok res =>
      obtain ⟨db', loan'⟩ := res
      have hv : (loanReturnView db m' lpk).1 = db' := by
        unfold loanReturnView
        rw [hr]
      rw [hv]
      obtain ⟨loan, book, hl, hm, hb, hloan', hdb⟩ :=
        executeReturn_ok db lpk (some m') db' loan' hr
      subst hdb
      subst hloan'
      rw [activeMemberBookCount_eq] at h ⊢
      dsimp only
      have hle := countP_setTbl_le
        (fun e => e.2.memberId = m && e.2.bookId = b && e.2.isActive)
        db.loans lpk { loan with isActive := false, returnedAt := some db.now }
        (by simp)
      omega
  | forceReturn lpk =>
    have hstep : activeMemberBookCount (step db (Op.forceReturn lpk)) m b
        = activeMemberBookCount (staffForceReturnView db lpk).1 m b := rfl
    rw [hstep]
    cases hr : executeReturn db lpk none with
    | error e =>
      have hv : (staffForceReturnView db lpk).1 = db := by
        unfold staffForceReturnView
        rw [hr]
      rw [hv]
      exact h
    | ok res =>
      obtain ⟨db', loan'⟩ := res
      have hv : (staffForceReturnView db lpk).1 = db' := by
        unfold staffForceReturnView
        rw [hr]
      rw [hv]
      obtain ⟨loan, book, hl, hm, hb, hloan', hdb⟩ :=
        executeReturn_ok db lpk none db' loan' hr
      subst hdb
      subst hloan'
      rw [activeMemberBookCount_eq] at h ⊢
      dsimp only
      have hle := countP_setTbl_le
        (fun e => e.2.memberId = m && e.2.bookId = b && e.2.isActive)
        db.loans lpk { loan with isActive := false, returnedAt := some db.now }
        (by simp)
      omega
  | createBook d =>
    have hstep : activeMemberBookCount (step db (Op.createBook d)) m b
        = activeMemberBookCount (staffBookCreateView db d).1 m b := rfl
    rw [hstep]
    unfold staffBookCreateView
    by_cases hvf : bookFormValid db none d = true
    · rw [if_pos hvf]
      exact h
    · rw [if_neg hvf]
      exact h
  | updateBook pk d =>
    have hloans : (staffBookUpdateView db pk d).1.loans = db.loans := by
      unfold staffBookUpdateView
      cases hbook : lookupBook db pk with
      | none => rfl
      | some book =>
        by_cases hvf : bookFormValid db (some pk) d = true
        · simp [hvf]
        · simp [hvf]
    have hstep : activeMemberBookCount (step db (Op.updateBook pk d)) m b
        = (staffBookUpdateView db pk d).1.loans.countP
          (fun e => e.2.memberId = m && e.2.bookId = b && e.2.isActive) := rfl
    rw [hstep, hloans]
    rw [activeMemberBookCount_eq] at h
    exact h
  | deleteBook pk =>
    have hstep : activeMemberBookCount (step db (Op.deleteBook pk)) m b
        = activeMemberBookCount (staffBookDeleteView db pk).1 m b := rfl
    rw [hstep]
    unfold staffBookDeleteView
    cases hbook : lookupBook db pk with
    | none => exact h
    | some book =>
      by_cases hact : hasActiveBookLoan db pk = true
      · rw [if_pos hact]
        exact h
      · rw [if_neg hact]
        rw [activeMemberBookCount_eq] at h ⊢
        dsimp only
        have hle := (dropLoansOfBook_sublist db.loans pk).countP_le
          (fun e => e.2.memberId = m && e.2.bookId = b && e.2.isActive)
        omega

/-- C5: in every reachable state there is at most one active Loan per
(member, book) pair — no sequence of requests from the empty database
can produce two active loan rows for the same member and book. -/
theorem at_most_one_active_loan_per_member_book
    (ops : List Op) (member bookPk : Nat) :
    activeMemberBookCount (run ops) member bookPk ≤ 1 := by
  refine foldl_inv (fun d => activeMemberBookCount d member bookPk ≤ 1)
    (fun _ => True) ops initDB ?_ (fun _ _ => trivial)
    (fun d op _ hle => activeMemberBookCount_step_le d op member bookPk hle)
  show activeMemberBookCount initDB member bookPk ≤ 1
  rw [activeMemberBookCount_eq]
  simp [initDB]

theorem bookFormValid_avail_le (db : DB) (ex : Option Nat) (d : BookFormData)
    (h : bookFormValid db ex d = true) :
    d.availableCopies ≤ d.totalCopies := by
  unfold bookFormValid at h
  simp only [Bool.and_eq_true, decide_eq_true_eq] at h
  exact h.1

theorem goodState_init : GoodState initDB := by
  refine ⟨?_, ?_, ?_⟩
  · intro e he
    simp [initDB] at he
  · intro e he
    simp [initDB] at he
  · intro pk book hbk
    simp [initDB, lookupBook, lookupTbl] at hbk

/-- Every request other than a staff book edit preserves `GoodState`,
in particular the bound `available + active loans ≤ total`. -/
theorem goodState_step (db : DB) (op : Op) (hnu : op.isBookUpdate = false)
    (h : GoodState db) : GoodState (step db op) := by
  obtain ⟨hKeys, hRefs, hBound⟩ := h
  cases op with
  | updateBook pk d => simp [Op.isBookUpdate] at hnu
  | checkout m' b' =>
    have hstep : step db (Op.checkout m' b')
        = { (bookCheckoutView db m' b').1 with now := db.now + 1 } := rfl
    rw [hstep]
    cases hc : executeCheckout db m' b' with
    | error e =>
      have hv : (bookCheckoutView db m' b').1 = db := by
        unfold bookCheckoutView
        rw [hc]
        cases e <;> rfl
      rw [hv]
      exact ⟨hKeys, hRefs, hBound⟩
    | ok res =>
      obtain ⟨db', lpk, loan⟩ := res
      have hv : (bookCheckoutView db m' b').1 = db' := by
        unfold bookCheckoutView
        rw [hc]
      rw [hv]
      obtain ⟨book, hb, hav, hdup, hloan, hlpk, hdb⟩ :=
        executeCheckout_ok db m' b' db' lpk loan hc
      subst hdb
      subst hloan
      subst hlpk
      refine ⟨?_, ?_, ?_⟩
      · intro e he
        rcases mem_setTbl _ _ _ _ he with hm | hm
        · exact hKeys e hm
        · rw [hm]
          exact hKeys (b', book) (lookupTbl_mem _ _ _ hb)
      · intro e he
        rcases List.mem_append.mp he with hm | hm
        · exact hRefs e hm
        · rw [List.mem_singleton] at hm
          rw [hm]
          exact hKeys _ (lookupTbl_mem _ _ _ hb)
      · intro pk bk hbk
        simp only [lookupBook] at hbk
        rw [activeBookLoanCount_def]
        dsimp only
        by_cases hpk : pk = b'
        · subst hpk
          rw [lookupTbl_setTbl_self _ _ _ _ hb] at hbk
          injection hbk with he
          subst he
          have hcnt := countBook_append_hit db.loans
            (db.nextLoanPk,
              { memberId := m', bookId := pk, checkedOutAt := db.now,
                returnedAt := none, isActive := true }) pk rfl rfl
          rw [hcnt]
          have hB := hBound pk book hb
          rw [activeBookLoanCount_def] at hB
          dsimp only
          omega
        · rw [lookupTbl_setTbl_ne _ _ _ _ hpk] at hbk
          have hcnt := countBook_append_miss db.loans
            (db.nextLoanPk,
              { memberId := m', bookId := b', checkedOutAt := db.now,
                returnedAt := none, isActive := true }) pk
            (fun hc2 => hpk hc2.symm)
          rw [hcnt]
          have hB := hBound pk bk hbk
          rw [activeBookLoanCount_def] at hB
          exact hB
  | memberReturn m' lpk =>
    have hstep : step db (Op.memberReturn m' lpk)
        = { (loanReturnView db m' lpk).1 with now := db.now + 1 } := rfl
    rw [hstep]
    cases hr : executeReturn db lpk (some m') with
    | error e =>
      have hv : (loanReturnView db m' lpk).1 = db := by
        unfold loanReturnView
        rw [hr]
      rw [hv]
      exact ⟨hKeys, hRefs, hBound⟩
    | ok res =>
      obtain ⟨db', loan'⟩ := res
      have hv : (loanReturnView db m' lpk).1 = db' := by
        unfold loanReturnView
        rw [hr]
      rw [hv]
      obtain ⟨loan, book, hl, hm, hb, hloan', hdb⟩ :=
        executeReturn_ok db lpk (some m') db' loan' hr
      subst hdb
      subst hloan'
      have hia := loanMatches_isActive loan (some m') hm
      refine ⟨?_, ?_, ?_⟩
      · intro e he
        rcases mem_setTbl _ _ _ _ he with hmem | hmem
        · exact hKeys e hmem
        · rw [hmem]
          exact hKeys (loan.bookId, book) (lookupTbl_mem _ _ _ hb)
      · intro e he
        rcases mem_setTbl _ _ _ _ he with hmem | hmem
        · exact hRefs e hmem
        · rw [hmem]
          exact hRefs (lpk, loan) (lookupTbl_mem _ _ _ hl)
      · intro pk bk hbk
        simp only [lookupBook] at hbk
        rw [activeBookLoanCount_def]
        dsimp only
        by_cases hpk : pk = loan.bookId
        · subst hpk
          rw [lookupTbl_setTbl_self _ _ _ _ hb] at hbk
          injection hbk with he
          subst he
          have hB := hBound loan.bookId book hb
          rw [activeBookLoanCount_def] at hB
          have hcount := countP_setTbl_minus
            (fun e => e.2.bookId = loan.bookId && e.2.isActive)
            db.loans lpk loan
            { loan with isActive := false, returnedAt := some db.now }
            hl (by simp [hia]) (by simp)
          dsimp only
          omega
        · rw [lookupTbl_setTbl_ne _ _ _ _ hpk] at hbk
          have hnb : ¬ loan.bookId = pk := fun hc2 => hpk hc2.symm
          have hcount := countP_setTbl_congr
            (fun e => e.2.bookId = pk && e.2.isActive)
            db.loans lpk loan
            { loan with isActive := false, returnedAt := some db.now }
            hl (by simp [hnb])
          rw [hcount]
          have hB := hBound pk bk hbk
          rw [activeBookLoanCount_def] at hB
          exact hB
  | forceReturn lpk =>
    have hstep : step db (Op.forceReturn lpk)
        = { (staffForceReturnView db lpk).1 with now := db.now + 1 } := rfl
    rw [hstep]
    cases hr : executeReturn db lpk none with
    | error e =>
      have hv : (staffForceReturnView db lpk).1 = db := by
        unfold staffForceReturnView
        rw [hr]
      rw [hv]
      exact ⟨hKeys, hRefs, hBound⟩
    | ok res =>
      obtain ⟨db', loan'⟩ := res
      have hv : (staffForceReturnView db lpk).1 = db' := by
        unfold staffForceReturnView
        rw [hr]
      rw [hv]
      obtain ⟨loan, book, hl, hm, hb, hloan', hdb⟩ :=
        executeReturn_ok db lpk none db' loan' hr
      subst hdb
      subst hloan'
      have hia := loanMatches_isActive loan none hm
      refine ⟨?_, ?_, ?_⟩
      · intro e he
        rcases mem_setTbl _ _ _ _ he with hmem | hmem
        · exact hKeys e hmem
        · rw [hmem]
          exact hKeys (loan.bookId, book) (lookupTbl_mem _ _ _ hb)
      · intro e he
        rcases mem_setTbl _ _ _ _ he with hmem | hmem
        · exact hRefs e hmem
        · rw [hmem]
          exact hRefs (lpk, loan) (lookupTbl_mem _ _ _ hl)
      · intro pk bk hbk
        simp only [lookupBook] at hbk
        rw [activeBookLoanCount_def]
        dsimp only
        by_cases hpk : pk = loan.bookId
        · subst hpk
          rw [lookupTbl_setTbl_self _ _ _ _ hb] at hbk
          injection hbk with he
          subst he
          have hB := hBound loan.bookId book hb
          rw [activeBookLoanCount_def] at hB
          have hcount := countP_setTbl_minus
            (fun e => e.2.bookId = loan.bookId && e.2.isActive)
            db.loans lpk loan
            { loan with isActive := false, returnedAt := some db.now }
            hl (by simp [hia]) (by simp)
          dsimp only
          omega
        · rw [lookupTbl_setTbl_ne _ _ _ _ hpk] at hbk
          have hnb : ¬ loan.bookId = pk := fun hc2 => hpk hc2.symm
          have hcount := countP_setTbl_congr
            (fun e => e.2.bookId = pk && e.2.isActive)
            db.loans lpk loan
            { loan with isActive := false, returnedAt := some db.now }
            hl (by simp [hnb])
          rw [hcount]
          have hB := hBound pk bk hbk
          rw [activeBookLoanCount_def] at hB
          exact hB
  | createBook d =>
    have hstep : step db (Op.createBook d)
        = { (staffBookCreateView db d).1 with now := db.now + 1 } := rfl
    rw [hstep]
    by_cases hvf : bookFormValid db none d = true
    · have hv : (staffBookCreateView db d).1 =
          { db with
            books := db.books ++ [(db.nextBookPk,
              { title := d.title, author := d.author, isbn := d.isbn,
                genres := d.genres, totalCopies := d.totalCopies,
                availableCopies := d.availableCopies, addedAt := db.now })],
            nextBookPk := db.nextBookPk + 1 } := by
        unfold staffBookCreateView
        rw [if_pos hvf]
      rw [hv]
      refine ⟨?_, ?_, ?_⟩
      · intro e he
        rcases List.mem_append.mp he with hmem | hmem
        · exact Nat.lt_succ_of_lt (hKeys e hmem)
        · rw [List.mem_singleton] at hmem
          rw [hmem]
          exact Nat.lt_succ_self _
      · intro e he
        exact Nat.lt_succ_of_lt (hRefs e he)
      · intro pk bk hbk
        simp only [lookupBook] at hbk
        rw [activeBookLoanCount_def]
        dsimp only
        cases hold : lookupTbl db.books pk with
        | some bk0 =>
          rw [lookupTbl_append_some _ _ _ _ hold] at hbk
          injection hbk with he
          subst he
          have hB := hBound pk bk0 hold
          rw [activeBookLoanCount_def] at hB
          exact hB
        | none =>
          rw [lookupTbl_append_none _ _ _ hold] at hbk
          by_cases hpk : db.nextBookPk = pk
          · simp only [lookupTbl, hpk, if_true] at hbk
            injection hbk with he
            subst he
            have hz : db.loans.countP
                (fun e => e.2.bookId = pk && e.2.isActive) = 0 := by
              rw [List.countP_eq_zero]
              intro e he2
              intro hpred
              simp only [Bool.and_eq_true, decide_eq_true_eq] at hpred
              have hlt := hRefs e he2
              omega
            rw [hz]
            have hle := bookFormValid_avail_le db none d hvf
            dsimp only
            omega
          · simp only [lookupTbl, hpk, if_false] at hbk
            cases hbk
    · have hv : (staffBookCreateView db d).1 = db := by
        unfold staffBookCreateView
        rw [if_neg hvf]
      rw [hv]
      exact ⟨hKeys, hRefs, hBound⟩
  | deleteBook pk0 =>
    have hstep : step db (Op.deleteBook pk0)
        = { (staffBookDeleteView db pk0).1 with now := db.now + 1 } := rfl
    rw [hstep]
    cases hbook : lookupBook db pk0 with
    | none =>
      have hv : (staffBookDeleteView db pk0).1 = db := by
        unfold staffBookDeleteView
        rw [hbook]
      rw [hv]
      exact ⟨hKeys, hRefs, hBound⟩
    | some book0 =>
      by_cases hact : hasActiveBookLoan db pk0 = true
      · have hv : (staffBookDeleteView db pk0).1 = db := by
          unfold staffBookDeleteView
          rw [hbook]
          rw [if_pos hact]
        rw [hv]
        exact ⟨hKeys, hRefs, hBound⟩
      · have hv : (staffBookDeleteView db pk0).1 =
            { db with books := eraseTbl db.books pk0,
                      loans := dropLoansOfBook db.loans pk0 } := by
          unfold staffBookDeleteView
          rw [hbook]
          rw [if_neg hact]
        rw [hv]
        refine ⟨?_, ?_, ?_⟩
        · intro e he
          exact hKeys e ((mem_eraseTbl _ _ _).mp he).1
        · intro e he
          exact hRefs e ((mem_dropLoansOfBook _ _ _).mp he).1
        · intro pk bk hbk
          simp only [lookupBook] at hbk
          rw [activeBookLoanCount_def]
          dsimp only
          by_cases hpk : pk = pk0
          · subst hpk
            rw [lookupTbl_eraseTbl_self] at hbk
            cases hbk
          · rw [lookupTbl_eraseTbl_ne _ _ _ hpk] at hbk
            have hcnt := countP_dropLoansOfBook db.loans pk0
              (fun e => e.2.bookId = pk && e.2.isActive)
              (by
                intro e hpred
                simp only [Bool.and_eq_true, decide_eq_true_eq] at hpred
                rw [hpred.1]
                exact hpk)
            rw [hcnt]
            have hB := hBound pk bk hbk
            rw [activeBookLoanCount_def] at hB
            exact hB

/-- Counterexample to C6 as stated: in the reachable state obtained by
creating a one-copy book, checking it out, staff-editing the book back
to one available copy (the form check `available ≤ total` passes), and
returning the loan, the book ends with `available_copies = 2` above
`total_copies = 1`. -/
theorem available_exceeds_total_counterexample :
    lookupBook (run [Op.createBook fdOne, Op.checkout 7 1,
      Op.updateBook 1 fdOne, Op.forceReturn 1]) 1 = some (bkT 2 1) ∧
    booksWithinTotal (run [Op.createBook fdOne, Op.checkout 7 1,
      Op.updateBook 1 fdOne, Op.forceReturn 1]) = false := by
  constructor
  · decide
  · decide

/-- C6 amended: `0 ≤ available_copies` always (the field is unsigned,
with a database non-negativity constraint); `available_copies ≤
total_copies` holds right after any successful staff book edit, and
holds in every state reachable without staff book edits (checkout,
return, create and delete all preserve it); a staff edit made while
the book has active loans can be followed by a return that pushes
`available_copies` above `total_copies`. -/
theorem copy_bound_without_staff_edits :
    (∀ ops, (∀ op ∈ ops, op.isBookUpdate = false) →
      ∀ pk book, lookupBook (run ops) pk = some book →
        book.availableCopies ≤ book.totalCopies) ∧
    (∀ db pk d db', staffBookUpdateView db pk d = (db', HttpResult.success) →
      ∀ book, lookupBook db' pk = some book →
        book.availableCopies ≤ book.totalCopies) := by
  constructor
  · intro ops hops pk book hbk
    have hgs : GoodState (run ops) :=
      foldl_inv GoodState (fun op => op.isBookUpdate = false) ops initDB
        goodState_init hops (fun d op hq hp => goodState_step d op hq hp)
    have hB := hgs.2.2 pk book hbk
    omega
  · intro db pk d db' hrun book hbk
    unfold staffBookUpdateView at hrun
    cases hbook : lookupBook db pk with
    | none =>
      rw [hbook] at hrun
      simp at hrun
    | some book0 =>
      rw [hbook] at hrun
      by_cases hvf : bookFormValid db (some pk) d = true
      · simp only [hvf, if_true] at hrun
        rw [Prod.mk.injEq] at hrun
        obtain ⟨h1, -⟩ := hrun
        subst h1
        simp only [lookupBook] at hbk
        rw [lookupTbl_setTbl_self _ _ _ _ hbook] at hbk
        injection hbk with he
        subst he
        exact bookFormValid_avail_le db (some pk) d hvf
      · simp [hvf] at hrun

/-- Witness for `copy_bound_without_staff_edits`: a run with no staff
edit keeps `available ≤ total`. -/
theorem copy_bound_without_staff_edits_witness :
    (∀ op ∈ [Op.createBook fdThree, Op.checkout 7 1], op.isBookUpdate = false) ∧
    lookupBook (run [Op.createBook fdThree, Op.checkout 7 1]) 1 = some (bkT 2 3) ∧
    (bkT 2 3).availableCopies ≤ (bkT 2 3).totalCopies :=
  ⟨by decide, by decide,
    copy_bound_without_staff_edits.1 [Op.createBook fdThree, Op.checkout 7 1]
      (by decide) 1 (bkT 2 3) (by decide)⟩

/-- Counterexample to C7 as stated: a staff book edit — neither a
checkout nor a return — changes an existing book's `available_copies`
from 3 to 1. -/
theorem staff_edit_changes_available_counterexample :
    lookupBook (run [Op.createBook fdThree]) 1 = some (bkT 3 3) ∧
    lookupBook (run [Op.createBook fdThree, Op.updateBook 1 fdOne]) 1 =
      some (bkT 1 1) := by
  constructor
  · decide
  · decide

/-- C7 amended: an existing book's `available_copies` is changed only
by a checkout of that book, a return of a loan of that book, or a
staff edit of that book through `BookForm` (which exposes
`available_copies`); no other request changes it. -/
theorem available_changed_only_by_checkout_return_or_edit
    (db : DB) (op : Op) (pk : Nat) (b b' : Book)
    (hb : lookupBook db pk = some b)
    (hb' : lookupBook (step db op) pk = some b')
    (hch : b'.availableCopies ≠ b.availableCopies) :
    (∃ m, op = Op.checkout m pk) ∨
    (∃ m lpk loan, op = Op.memberReturn m lpk ∧
      lookupLoan db lpk = some loan ∧ loan.bookId = pk) ∨
    (∃ lpk loan, op = Op.forceReturn lpk ∧
      lookupLoan db lpk = some loan ∧ loan.bookId = pk) ∨
    (∃ d, op = Op.updateBook pk d) := by
  cases op with
  | checkout m' b2 =>
    by_cases hpk : pk = b2
    · subst hpk
      exact Or.inl ⟨m', rfl⟩
    · exfalso
      have hfix : lookupBook (step db (Op.checkout m' b2)) pk
          = lookupBook db pk := by
        show lookupTbl (bookCheckoutView db m' b2).1.books pk = _
        cases hc : executeCheckout db m' b2 with
        | error e =>
          have hv : (bookCheckoutView db m' b2).1 = db := by
            unfold bookCheckoutView
            rw [hc]
            cases e <;> rfl
          rw [hv]
          rfl
        | ok res =>
          obtain ⟨db2, lpk, loan⟩ := res
          have hv : (bookCheckoutView db m' b2).1 = db2 := by
            unfold bookCheckoutView
            rw [hc]
          obtain ⟨book, hbb, hav, hdup, hloan, hlpk, hdb⟩ :=
            executeCheckout_ok db m' b2 db2 lpk loan hc
          rw [hv, hdb]
          exact lookupTbl_setTbl_ne _ _ _ _ hpk
      rw [hfix, hb] at hb'
      injection hb' with he
      exact hch ((congrArg Book.availableCopies he).symm)
  | memberReturn m' lpk =>
    cases hr : executeReturn db lpk (some m') with
    | error e =>
      exfalso
      have hv : (loanReturnView db m' lpk).1 = db := by
        unfold loanReturnView
        rw [hr]
      have hfix : lookupBook (step db (Op.memberReturn m' lpk)) pk
          = lookupBook db pk := by
        show lookupTbl (loanReturnView db m' lpk).1.books pk = _
        rw [hv]
        rfl
      rw [hfix, hb] at hb'
      injection hb' with he
      exact hch ((congrArg Book.availableCopies he).symm)
    | ok res =>
      obtain ⟨db2, loan'⟩ := res
      obtain ⟨loan, book, hl, hmt, hbb, hloan', hdb⟩ :=
        executeReturn_ok db lpk (some m') db2 loan' hr
      by_cases hpk : pk = loan.bookId
      · exact Or.inr (Or.inl ⟨m', lpk, loan, rfl, hl, hpk.symm⟩)
      · exfalso
        have hv : (loanReturnView db m' lpk).1 = db2 := by
          unfold loanReturnView
          rw [hr]
        have hfix : lookupBook (step db (Op.memberReturn m' lpk)) pk
            = lookupBook db pk := by
          show lookupTbl (loanReturnView db m' lpk).1.books pk = _
          rw [hv, hdb]
          exact lookupTbl_setTbl_ne _ _ _ _ hpk
        rw [hfix, hb] at hb'
        injection hb' with he
        exact hch ((congrArg Book.availableCopies he).symm)
  | forceReturn lpk =>
    cases hr : executeReturn db lpk none with
    | error e =>
      exfalso
      have hv : (staffForceReturnView db lpk).1 = db := by
        unfold staffForceReturnView
        rw [hr]
      have hfix : lookupBook (step db (Op.forceReturn lpk)) pk
          = lookupBook db pk := by
        show lookupTbl (staffForceReturnView db lpk).1.books pk = _
        rw [hv]
        rfl
      rw [hfix, hb] at hb'
      injection hb' with he
      exact hch ((congrArg Book.availableCopies he).symm)
    | ok res =>
      obtain ⟨db2, loan'⟩ := res
      obtain ⟨loan, book, hl, hmt, hbb, hloan', hdb⟩ :=
        executeReturn_ok db lpk none db2 loan' hr
      by_cases hpk : pk = loan.bookId
      · exact Or.inr (Or.inr (Or.inl ⟨lpk, loan, rfl, hl, hpk.symm⟩))
      · exfalso
        have hv : (staffForceReturnView db lpk).1 = db2 := by
          unfold staffForceReturnView
          rw [hr]
        have hfix : lookupBook (step db (Op.forceReturn lpk)) pk
            = lookupBook db pk := by
          show lookupTbl (staffForceReturnView db lpk).1.books pk = _
          rw [hv, hdb]
          exact lookupTbl_setTbl_ne _ _ _ _ hpk
        rw [hfix, hb] at hb'
        injection hb' with he
        exact hch ((congrArg Book.availableCopies he).symm)
  | createBook d =>
    exfalso
    have hfix : lookupBook (step db (Op.createBook d)) pk
        = lookupBook db pk := by
      show lookupTbl (staffBookCreateView db d).1.books pk = _
      by_cases hvf : bookFormValid db none d = true
      · have hv : (staffBookCreateView db d).1 =
            { db with
              books := db.books ++ [(db.nextBookPk,
                { title := d.title, author := d.author, isbn := d.isbn,
                  genres := d.genres, totalCopies := d.totalCopies,
                  availableCopies := d.availableCopies, addedAt := db.now })],
              nextBookPk := db.nextBookPk + 1 } := by
          unfold staffBookCreateView
          rw [if_pos hvf]
        rw [hv]
        rw [lookupTbl_append_some _ _ _ _ hb]
        rw [hb]
      · have hv : (staffBookCreateView db d).1 = db := by
          unfold staffBookCreateView
          rw [if_neg hvf]
        rw [hv]
        rfl
    rw [hfix, hb] at hb'
    injection hb' with he
    exact hch ((congrArg Book.availableCopies he).symm)
  | updateBook pk0 d =>
    by_cases hpk : pk = pk0
    · subst hpk
      exact Or.inr (Or.inr (Or.inr ⟨d, rfl⟩))
    · exfalso
      have hfix : lookupBook (step db (Op.updateBook pk0 d)) pk
          = lookupBook db pk := by
        show lookupTbl (staffBookUpdateView db pk0 d).1.books pk = _
        unfold staffBookUpdateView
        cases hbook : lookupBook db pk0 with
        | none => rfl
        | some book0 =>
          by_cases hvf : bookFormValid db (some pk0) d = true
          · simp only [hvf, if_true]
            exact lookupTbl_setTbl_ne _ _ _ _ hpk
          · simp only [hvf, Bool.false_eq_true, if_false]
            rfl
      rw [hfix, hb] at hb'
      injection hb' with he
      exact hch ((congrArg Book.availableCopies he).symm)
  | deleteBook pk0 =>
    exfalso
    cases hbook : lookupBook db pk0 with
    | none =>
      have hfix : lookupBook (step db (Op.deleteBook pk0)) pk
          = lookupBook db pk := by
        show lookupTbl (staffBookDeleteView db pk0).1.books pk = _
        unfold staffBookDeleteView
        rw [hbook]
        rfl
      rw [hfix, hb] at hb'
      injection hb' with he
      exact hch ((congrArg Book.availableCopies he).symm)
    | some book0 =>
      by_cases hact : hasActiveBookLoan db pk0 = true
      · have hfix : lookupBook (step db (Op.deleteBook pk0)) pk
            = lookupBook db pk := by
          show lookupTbl (staffBookDeleteView db pk0).1.books pk = _
          unfold staffBookDeleteView
          rw [hbook, if_pos hact]
          rfl
        rw [hfix, hb] at hb'
        injection hb' with he
        exact hch ((congrArg Book.availableCopies he).symm)
      · have hv : (staffBookDeleteView db pk0).1 =
            { db with books := eraseTbl db.books pk0,
                      loans := dropLoansOfBook db.loans pk0 } := by
          unfold staffBookDeleteView
          rw [hbook, if_neg hact]
        by_cases hpk : pk = pk0
        · subst hpk
          have hfix : lookupBook (step db (Op.deleteBook pk)) pk = none := by
            show lookupTbl (staffBookDeleteView db pk).1.books pk = none
            rw [hv]
            exact lookupTbl_eraseTbl_self _ _
          rw [hfix] at hb'
          cases hb'
        · have hfix : lookupBook (step db (Op.deleteBook pk0)) pk
              = lookupBook db pk := by
            show lookupTbl (staffBookDeleteView db pk0).1.books pk = _
            rw [hv]
            exact lookupTbl_eraseTbl_ne _ _ _ hpk
          rw [hfix, hb] at hb'
          injection hb' with he
          exact hch ((congrArg Book.availableCopies he).symm)

/-- Witness for `available_changed_only_by_checkout_return_or_edit`:
the staff edit of book 1 lands in the edit disjunct. -/
theorem available_changed_only_by_checkout_return_or_edit_witness :
    lookupBook (run [Op.createBook fdThree]) 1 = some (bkT 3 3) ∧
    lookupBook (step (run [Op.createBook fdThree]) (Op.updateBook 1 fdOne)) 1 =
      some (bkT 1 1) ∧
    (bkT 1 1).availableCopies ≠ (bkT 3 3).availableCopies ∧
    ((∃ m, Op.updateBook 1 fdOne = Op.checkout m 1) ∨
      (∃ m lpk loan, Op.updateBook 1 fdOne = Op.memberReturn m lpk ∧
        lookupLoan (run [Op.createBook fdThree]) lpk = some loan ∧
        loan.bookId = 1) ∨
      (∃ lpk loan, Op.updateBook 1 fdOne = Op.forceReturn lpk ∧
        lookupLoan (run [Op.createBook fdThree]) lpk = some loan ∧
        loan.bookId = 1) ∨
      (∃ d, Op.updateBook 1 fdOne = Op.updateBook 1 d)) :=
  ⟨by decide, by decide, by decide,
    available_changed_only_by_checkout_return_or_edit
      (run [Op.createBook fdThree]) (Op.updateBook 1 fdOne) 1
      (bkT 3 3) (bkT 1 1) (by decide) (by decide) (by decide)⟩

theorem loanKeysOK_init : LoanKeysOK initDB := by
  constructor
  · simp [initDB]
  · intro e he
    simp [initDB] at he

/-- Every request preserves distinctness and freshness of loan pks. -/
theorem loanKeysOK_step (db : DB) (op : Op) (h : LoanKeysOK db) :
    LoanKeysOK (step db op) := by
  obtain ⟨hnd, hlt⟩ := h
  cases op with
  | checkout m' b' =>
    cases hc : executeCheckout db m' b' with
    | error e =>
      have hv : (bookCheckoutView db m' b').1 = db := by
        unfold bookCheckoutView
        rw [hc]
        cases e <;> rfl
      have hstep : step db (Op.checkout m' b')
          = { (bookCheckoutView db m' b').1 with now := db.now + 1 } := rfl
      rw [hstep, hv]
      exact ⟨hnd, hlt⟩
    | ok res =>
      obtain ⟨db', lpk, loan⟩ := res
      have hv : (bookCheckoutView db m' b').1 = db' := by
        unfold bookCheckoutView
        rw [hc]
      have hstep : step db (Op.checkout m' b')
          = { (bookCheckoutView db m' b').1 with now := db.now + 1 } := rfl
      rw [hstep, hv]
      obtain ⟨book, hb, hav, hdup, hloan, hlpk, hdb⟩ :=
        executeCheckout_ok db m' b' db' lpk loan hc
      subst hdb
      subst hloan
      subst hlpk
      constructor
      · show ((db.loans ++ [(db.nextLoanPk, _)]).map Prod.fst).Nodup
        rw [List.map_append]
        rw [List.nodup_append]
        refine ⟨hnd, List.nodup_singleton _, ?_⟩
        intro a ha ha2
        simp only [List.map_cons, List.map_nil, List.mem_singleton] at ha2
        rcases List.mem_map.mp ha with ⟨e, he, hfst⟩
        have := hlt e he
        omega
      · intro e he
        rcases List.mem_append.mp he with hm | hm
        · exact Nat.lt_succ_of_lt (hlt e hm)
        · rw [List.mem_singleton] at hm
          rw [hm]
          exact Nat.lt_succ_self _
  | memberReturn m' lpk =>
    cases hr : executeReturn db lpk (some m') with
    | error e =>
      have hv : (loanReturnView db m' lpk).1 = db := by
        unfold loanReturnView
        rw [hr]
      have hstep : step db (Op.memberReturn m' lpk)
          = { (loanReturnView db m' lpk).1 with now := db.now + 1 } := rfl
      rw [hstep, hv]
      exact ⟨hnd, hlt⟩
    | ok res =>
      obtain ⟨db', loan'⟩ := res
      have hv : (loanReturnView db m' lpk).1 = db' := by
        unfold loanReturnView
        rw [hr]
      have hstep : step db (Op.memberReturn m' lpk)
          = { (loanReturnView db m' lpk).1 with now := db.now + 1 } := rfl
      rw [hstep, hv]
      obtain ⟨loan, book, hl, hmt, hb, hloan', hdb⟩ :=
        executeReturn_ok db lpk (some m') db' loan' hr
      subst hdb
      subst hloan'
      constructor
      · show ((setTbl db.loans lpk _).map Prod.fst).Nodup
        rw [setTbl_keys]
        exact hnd
      · intro e he
        rcases mem_setTbl _ _ _ _ he with hm | hm
        · exact hlt e hm
        · rw [hm]
          exact hlt (lpk, loan) (lookupTbl_mem _ _ _ hl)
  | forceReturn lpk =>
    cases hr : executeReturn db lpk none with
    | error e =>
      have hv : (staffForceReturnView db lpk).1 = db := by
        unfold staffForceReturnView
        rw [hr]
      have hstep : step db (Op.forceReturn lpk)
          = { (staffForceReturnView db lpk).1 with now := db.now + 1 } := rfl
      rw [hstep, hv]
      exact ⟨hnd, hlt⟩
    | ok res =>
      obtain ⟨db', loan'⟩ := res
      have hv : (staffForceReturnView db lpk).1 = db' := by
        unfold staffForceReturnView
        rw [hr]
      have hstep : step db (Op.forceReturn lpk)
          = { (staffForceReturnView db lpk).1 with now := db.now + 1 } := rfl
      rw [hstep, hv]
      obtain ⟨loan, book, hl, hmt, hb, hloan', hdb⟩ :=
        executeReturn_ok db lpk none db' loan' hr
      subst hdb
      subst hloan'
      constructor
      · show ((setTbl db.loans lpk _).map Prod.fst).Nodup
        rw [setTbl_keys]
        exact hnd
      · intro e he
        rcases mem_setTbl _ _ _ _ he with hm | hm
        · exact hlt e hm
        · rw [hm]
          exact hlt (lpk, loan) (lookupTbl_mem _ _ _ hl)
  | createBook d =>
    have h1 : (staffBookCreateView db d).1.loans = db.loans := by
      unfold staffBookCreateView
      by_cases hvf : bookFormValid db none d = true
      · rw [if_pos hvf]
      · rw [if_neg hvf]
    have h2 : (staffBookCreateView db d).1.nextLoanPk = db.nextLoanPk := by
      unfold staffBookCreateView
      by_cases hvf : bookFormValid db none d = true
      · rw [if_pos hvf]
      · rw [if_neg hvf]
    constructor
    · show ((staffBookCreateView db d).1.loans.map Prod.fst).Nodup
      rw [h1]
      exact hnd
    · intro e he
      have he2 : e ∈ (staffBookCreateView db d).1.loans := he
      rw [h1] at he2
      show e.1 < (staffBookCreateView db d).1.nextLoanPk
      rw [h2]
      exact hlt e he2
  | updateBook pk d =>
    have h1 : (staffBookUpdateView db pk d).1.loans = db.loans := by
      unfold staffBookUpdateView
      cases hbook : lookupBook db pk with
      | none => rfl
      | some book0 =>
        by_cases hvf : bookFormValid db (some pk) d = true
        · simp [hvf]
        · simp [hvf]
    have h2 : (staffBookUpdateView db pk d).1.nextLoanPk = db.nextLoanPk := by
      unfold staffBookUpdateView
      cases hbook : lookupBook db pk with
      | none => rfl
      | some book0 =>
        by_cases hvf : bookFormValid db (some pk) d = true
        · simp [hvf]
        · simp [hvf]
    constructor
    · show ((staffBookUpdateView db pk d).1.loans.map Prod.fst).Nodup
      rw [h1]
      exact hnd
    · intro e he
      have he2 : e ∈ (staffBookUpdateView db pk d).1.loans := he
      rw [h1] at he2
      show e.1 < (staffBookUpdateView db pk d).1.nextLoanPk
      rw [h2]
      exact hlt e he2
  | deleteBook pk0 =>
    cases hbook : lookupBook db pk0 with
    | none =>
      have hv : (staffBookDeleteView db pk0).1 = db := by
        unfold staffBookDeleteView
        rw [hbook]
      have hstep : step db (Op.deleteBook pk0)
          = { (staffBookDeleteView db pk0).1 with now := db.now + 1 } := rfl
      rw [hstep, hv]
      exact ⟨hnd, hlt⟩
    | some book0 =>
      by_cases hact : hasActiveBookLoan db pk0 = true
      · have hv : (staffBookDeleteView db pk0).1 = db := by
          unfold staffBookDeleteView
          rw [hbook, if_pos hact]
        have hstep : step db (Op.deleteBook pk0)
            = { (staffBookDeleteView db pk0).1 with now := db.now + 1 } := rfl
        rw [hstep, hv]
        exact ⟨hnd, hlt⟩
      · have hv : (staffBookDeleteView db pk0).1 =
            { db with books := eraseTbl db.books pk0,
                      loans := dropLoansOfBook db.loans pk0 } := by
          unfold staffBookDeleteView
          rw [hbook, if_neg hact]
        have hstep : step db (Op.deleteBook pk0)
            = { (staffBookDeleteView db pk0).1 with now := db.now + 1 } := rfl
        rw [hstep, hv]
        constructor
        · show ((dropLoansOfBook db.loans pk0).map Prod.fst).Nodup
          exact hnd.sublist ((dropLoansOfBook_sublist db.loans pk0).map Prod.fst)
        · intro e he
          exact hlt e ((mem_dropLoansOfBook _ _ _).mp he).1

theorem loanKeysOK_run (ops : List Op) : LoanKeysOK (run ops) :=
  foldl_inv LoanKeysOK (fun _ => True) ops initDB loanKeysOK_init
    (fun _ _ => trivial) (fun d op _ hp => loanKeysOK_step d op hp)

/-- One-step loan lifecycle over any state with well-formed loan pks:
a loan row disappears only through the delete cascade of its book (and
is then inactive), changes in place only through a return (flipping
the active flag and stamping the return time), and appears only
through a checkout. -/
theorem loan_step_lifecycle (db : DB) (op : Op) (lpk : Nat)
    (hkeys : LoanKeysOK db) :
    (∀ loan, lookupLoan db lpk = some loan →
      lookupLoan (step db op) lpk = none →
      loan.isActive = false ∧ op = Op.deleteBook loan.bookId) ∧
    (∀ loan loan', lookupLoan db lpk = some loan →
      lookupLoan (step db op) lpk = some loan' → loan' ≠ loan →
      loan.isActive = true ∧
      loan' = { loan with isActive := false, returnedAt := some db.now } ∧
      ((∃ m, op = Op.memberReturn m lpk) ∨ op = Op.forceReturn lpk)) ∧
    (∀ loan', lookupLoan db lpk = none →
      lookupLoan (step db op) lpk = some loan' →
      ∃ m bookPk, op = Op.checkout m bookPk ∧ loan'.memberId = m ∧
        loan'.bookId = bookPk ∧ loan'.isActive = true ∧
        loan'.returnedAt = none ∧ loan'.checkedOutAt = db.now) := by
  cases op with
  | checkout m' b' =>
    cases hc : executeCheckout db m' b' with
    | error e =>
      have hsame : lookupLoan (step db (Op.checkout m' b')) lpk
          = lookupLoan db lpk := by
        have hv : (bookCheckoutView db m' b').1 = db := by
          unfold bookCheckoutView
          rw [hc]
          cases e <;> rfl
        show lookupTbl (bookCheckoutView db m' b').1.loans lpk = _
        rw [hv]
        rfl
      refine ⟨?_, ?_, ?_⟩
      · intro loan hl hn
        rw [hsame, hl] at hn
        cases hn
      · intro loan loan' hl hs hne
        rw [hsame, hl] at hs
        injection hs with he
        exact absurd he.symm hne
      · intro loan' hl hs
        rw [hsame, hl] at hs
        cases hs
    | ok res =>
      obtain ⟨db2, lpk2, loan2⟩ := res
      obtain ⟨book, hb, hav, hdup, hloan, hlpk2, hdb⟩ :=
        executeCheckout_ok db m' b' db2 lpk2 loan2 hc
      subst hdb
      subst hloan
      subst hlpk2
      have hv : (bookCheckoutView db m' b').1 =
          { db with
            loans := db.loans ++ [(db.nextLoanPk,
              { memberId := m', bookId := b', checkedOutAt := db.now,
                returnedAt := none, isActive := true })],
            nextLoanPk := db.nextLoanPk + 1,
            books := setTbl db.books b'
              { book with availableCopies := book.availableCopies - 1 } } := by
        unfold bookCheckoutView
        rw [hc]
      have happ : lookupLoan (step db (Op.checkout m' b')) lpk
          = lookupTbl (db.loans ++ [(db.nextLoanPk,
              { memberId := m', bookId := b', checkedOutAt := db.now,
                returnedAt := none, isActive := true })]) lpk := by
        show lookupTbl (bookCheckoutView db m' b').1.loans lpk = _
        rw [hv]
      refine ⟨?_, ?_, ?_⟩
      · intro loan hl hn
        rw [happ, lookupTbl_append_some _ _ _ _ hl] at hn
        cases hn
      · intro loan loan' hl hs hne
        rw [happ, lookupTbl_append_some _ _ _ _ hl] at hs
        injection hs with he
        exact absurd he.symm hne
      · intro loan' hl hs
        rw [happ, lookupTbl_append_none _ _ _ hl] at hs
        by_cases hpk : db.nextLoanPk = lpk
        · simp only [lookupTbl, hpk, if_true] at hs
          injection hs with he
          subst he
          exact ⟨m', b', rfl, rfl, rfl, rfl, rfl, rfl⟩
        · simp only [lookupTbl, hpk, if_false] at hs
          cases hs
  | memberReturn m0 lpk0 =>
    cases hr : executeReturn db lpk0 (some m0) with
    | error e =>
      have hsame : lookupLoan (step db (Op.memberReturn m0 lpk0)) lpk
          = lookupLoan db lpk := by
        have hv : (loanReturnView db m0 lpk0).1 = db := by
          unfold loanReturnView
          rw [hr]
        show lookupTbl (loanReturnView db m0 lpk0).1.loans lpk = _
        rw [hv]
        rfl
      refine ⟨?_, ?_, ?_⟩
      · intro loan hl hn
        rw [hsame, hl] at hn
        cases hn
      · intro loan loan' hl hs hne
        rw [hsame, hl] at hs
        injection hs with he
        exact absurd he.symm hne
      · intro loan' hl hs
        rw [hsame, hl] at hs
        cases hs
    | ok res =>
      obtain ⟨db2, loanR⟩ := res
      obtain ⟨loan0, book, hl0, hmt, hb, hloanR, hdb⟩ :=
        executeReturn_ok db lpk0 (some m0) db2 loanR hr
      subst hdb
      subst hloanR
      have hv : (loanReturnView db m0 lpk0).1 =
          { db with
            loans := setTbl db.loans lpk0
              { loan0 with isActive := false, returnedAt := some db.now },
            books := setTbl db.books loan0.bookId
              { book with availableCopies := book.availableCopies + 1 } } := by
        unfold loanReturnView
        rw [hr]
      have hset : lookupLoan (step db (Op.memberReturn m0 lpk0)) lpk
          = lookupTbl (setTbl db.loans lpk0
              { loan0 with isActive := false, returnedAt := some db.now }) lpk := by
        show lookupTbl (loanReturnView db m0 lpk0).1.loans lpk = _
        rw [hv]
      refine ⟨?_, ?_, ?_⟩
      · intro loan hl hn
        by_cases hpk : lpk = lpk0
        · subst hpk
          rw [hset, lookupTbl_setTbl_self _ _ _ _ hl0] at hn
          cases hn
        · have hl2 : lookupTbl db.loans lpk = some loan := hl
          rw [hset, lookupTbl_setTbl_ne _ _ _ _ hpk, hl2] at hn
          cases hn
      · intro loan loan' hl hs hne
        by_cases hpk : lpk = lpk0
        · subst hpk
          rw [hl0] at hl
          injection hl with he0
          subst he0
          rw [hset, lookupTbl_setTbl_self _ _ _ _ hl0] at hs
          injection hs with he
          exact ⟨loanMatches_isActive loan0 (some m0) hmt, he.symm,
            Or.inl ⟨m0, rfl⟩⟩
        · have hl2 : lookupTbl db.loans lpk = some loan := hl
          rw [hset, lookupTbl_setTbl_ne _ _ _ _ hpk, hl2] at hs
          injection hs with he
          exact absurd he.symm hne
      · intro loan' hl hs
        by_cases hpk : lpk = lpk0
        · subst hpk
          rw [hl0] at hl
          cases hl
        · have hl2 : lookupTbl db.loans lpk = none := hl
          rw [hset, lookupTbl_setTbl_ne _ _ _ _ hpk, hl2] at hs
          cases hs
  | forceReturn lpk0 =>
    cases hr : executeReturn db lpk0 none with
    | error e =>
      have hsame : lookupLoan (step db (Op.forceReturn lpk0)) lpk
          = lookupLoan db lpk := by
        have hv : (staffForceReturnView db lpk0).1 = db := by
          unfold staffForceReturnView
          rw [hr]
        show lookupTbl (staffForceReturnView db lpk0).1.loans lpk = _
        rw [hv]
        rfl
      refine ⟨?_, ?_, ?_⟩
      · intro loan hl hn
        rw [hsame, hl] at hn
        cases hn
      · intro loan loan' hl hs hne
        rw [hsame, hl] at hs
        injection hs with he
        exact absurd he.symm hne
      · intro loan' hl hs
        rw [hsame, hl] at hs
        cases hs
    | ok res =>
      obtain ⟨db2, loanR⟩ := res
      obtain ⟨loan0, book, hl0, hmt, hb, hloanR, hdb⟩ :=
        executeReturn_ok db lpk0 none db2 loanR hr
      subst hdb
      subst hloanR
      have hv : (staffForceReturnView db lpk0).1 =
          { db with
            loans := setTbl db.loans lpk0
              { loan0 with isActive := false, returnedAt := some db.now },
            books := setTbl db.books loan0.bookId
              { book with availableCopies := book.availableCopies + 1 } } := by
        unfold staffForceReturnView
        rw [hr]
      have hset : lookupLoan (step db (Op.forceReturn lpk0)) lpk
          = lookupTbl (setTbl db.loans lpk0
              { loan0 with isActive := false, returnedAt := some db.now }) lpk := by
        show lookupTbl (staffForceReturnView db lpk0).1.loans lpk = _
        rw [hv]
      refine ⟨?_, ?_, ?_⟩
      · intro loan hl hn
        by_cases hpk : lpk = lpk0
        · subst hpk
          rw [hset, lookupTbl_setTbl_self _ _ _ _ hl0] at hn
          cases hn
        · have hl2 : lookupTbl db.loans lpk = some loan := hl
          rw [hset, lookupTbl_setTbl_ne _ _ _ _ hpk, hl2] at hn
          cases hn
      · intro loan loan' hl hs hne
        by_cases hpk : lpk = lpk0
        · subst hpk
          rw [hl0] at hl
          injection hl with he0
          subst he0
          rw [hset, lookupTbl_setTbl_self _ _ _ _ hl0] at hs
          injection hs with he
          exact ⟨loanMatches_isActive loan0 none hmt, he.symm, Or.inr rfl⟩
        · have hl2 : lookupTbl db.loans lpk = some loan := hl
          rw [hset, lookupTbl_setTbl_ne _ _ _ _ hpk, hl2] at hs
          injection hs with he
          exact absurd he.symm hne
      · intro loan' hl hs
        by_cases hpk : lpk = lpk0
        · subst hpk
          rw [hl0] at hl
          cases hl
        · have hl2 : lookupTbl db.loans lpk = none := hl
          rw [hset, lookupTbl_setTbl_ne _ _ _ _ hpk, hl2] at hs
          cases hs
  | createBook d =>
    have h1 : (staffBookCreateView db d).1.loans = db.loans := by
      unfold staffBookCreateView
      by_cases hvf : bookFormValid db none d = true
      · rw [if_pos hvf]
      · rw [if_neg hvf]
    have hsame : lookupLoan (step db (Op.createBook d)) lpk
        = lookupLoan db lpk := by
      show lookupTbl (staffBookCreateView db d).1.loans lpk = _
      rw [h1]
      rfl
    refine ⟨?_, ?_, ?_⟩
    · intro loan hl hn
      rw [hsame, hl] at hn
      cases hn
    · intro loan loan' hl hs hne
      rw [hsame, hl] at hs
      injection hs with he
      exact absurd he.symm hne
    · intro loan' hl hs
      rw [hsame, hl] at hs
      cases hs
  | updateBook pk0 d =>
    have h1 : (staffBookUpdateView db pk0 d).1.loans = db.loans := by
      unfold staffBookUpdateView
      cases hbook : lookupBook db pk0 with
      | none => rfl
      | some book0 =>
        by_cases hvf : bookFormValid db (some pk0) d = true
        · simp [hvf]
        · simp [hvf]
    have hsame : lookupLoan (step db (Op.updateBook pk0 d)) lpk
        = lookupLoan db lpk := by
      show lookupTbl (staffBookUpdateView db pk0 d).1.loans lpk = _
      rw [h1]
      rfl
    refine ⟨?_, ?_, ?_⟩
    · intro loan hl hn
      rw [hsame, hl] at hn
      cases hn
    · intro loan loan' hl hs hne
      rw [hsame, hl] at hs
      injection hs with he
      exact absurd he.symm hne
    · intro loan' hl hs
      rw [hsame, hl] at hs
      cases hs
  | deleteBook pk0 =>
    cases hbook : lookupBook db pk0 with
    | none =>
      have hsame : lookupLoan (step db (Op.deleteBook pk0)) lpk
          = lookupLoan db lpk := by
        have hv : (staffBookDeleteView db pk0).1 = db := by
          unfold staffBookDeleteView
          rw [hbook]
        show lookupTbl (staffBookDeleteView db pk0).1.loans lpk = _
        rw [hv]
        rfl
      refine ⟨?_, ?_, ?_⟩
      · intro loan hl hn
        rw [hsame, hl] at hn
        cases hn
      · intro loan loan' hl hs hne
        rw [hsame, hl] at hs
        injection hs with he
        exact absurd he.symm hne
      · intro loan' hl hs
        rw [hsame, hl] at hs
        cases hs
    | some book0 =>
      by_cases hact : hasActiveBookLoan db pk0 = true
      · have hsame : lookupLoan (step db (Op.deleteBook pk0)) lpk
            = lookupLoan db lpk := by
          have hv : (staffBookDeleteView db pk0).1 = db := by
            unfold staffBookDeleteView
            rw [hbook, if_pos hact]
          show lookupTbl (staffBookDeleteView db pk0).1.loans lpk = _
          rw [hv]
          rfl
        refine ⟨?_, ?_, ?_⟩
        · intro loan hl hn
          rw [hsame, hl] at hn
          cases hn
        · intro loan loan' hl hs hne
          rw [hsame, hl] at hs
          injection hs with he
          exact absurd he.symm hne
        · intro loan' hl hs
          rw [hsame, hl] at hs
          cases hs
      · have hv : (staffBookDeleteView db pk0).1 =
            { db with books := eraseTbl db.books pk0,
                      loans := dropLoansOfBook db.loans pk0 } := by
          unfold staffBookDeleteView
          rw [hbook, if_neg hact]
        have hdropL : lookupLoan (step db (Op.deleteBook pk0)) lpk
            = lookupTbl (dropLoansOfBook db.loans pk0) lpk := by
          show lookupTbl (staffBookDeleteView db pk0).1.loans lpk = _
          rw [hv]
        have hano : hasActiveBookLoan db pk0 = false := by
          cases hx : hasActiveBookLoan db pk0
          · rfl
          · exact absurd hx hact
        refine ⟨?_, ?_, ?_⟩
        · intro loan hl hn
          by_cases hbid : loan.bookId = pk0
          · have hmem := lookupTbl_mem _ _ _ hl
            have hinact : loan.isActive = false := by
              unfold hasActiveBookLoan at hano
              rw [List.any_eq_false] at hano
              have hnp := hano (lpk, loan) hmem
              cases hA : loan.isActive
              · rfl
              · exfalso
                apply hnp
                simp [hbid, hA]
            refine ⟨hinact, ?_⟩
            rw [hbid]
          · exfalso
            rw [hdropL, lookupTbl_dropLoansOfBook _ _ _ _ hl hbid] at hn
            cases hn
        · intro loan loan' hl hs hne
          exfalso
          by_cases hbid : loan.bookId = pk0
          · rw [hdropL,
              lookupTbl_dropLoansOfBook_dropped _ _ _ _ hkeys.1 hl hbid] at hs
            cases hs
          · rw [hdropL, lookupTbl_dropLoansOfBook _ _ _ _ hl hbid] at hs
            injection hs with he
            exact hne he.symm
        · intro loan' hl hs
          rw [hdropL, lookupTbl_dropLoansOfBook_none _ _ _ hl] at hs
          cases hs

/-- C8 amended: in every reachable state, a Loan row is created only by
checkout (new rows carry the checkout shape: active, no return time),
mutated in place only by a return and then exactly as documented
(active flag flipped, `returned_at` stamped), and deleted only by the
cascade when its book is deleted — which the staff view permits only
with no active loans, so only inactive loans are ever removed. -/
theorem loan_lifecycle (ops : List Op) (op : Op) (lpk : Nat) :
    (∀ loan, lookupLoan (run ops) lpk = some loan →
      lookupLoan (step (run ops) op) lpk = none →
      loan.isActive = false ∧ op = Op.deleteBook loan.bookId) ∧
    (∀ loan loan', lookupLoan (run ops) lpk = some loan →
      lookupLoan (step (run ops) op) lpk = some loan' → loan' ≠ loan →
      loan.isActive = true ∧
      loan' = { loan with
                isActive := false,
                returnedAt := some (run ops).now } ∧
      ((∃ m, op = Op.memberReturn m lpk) ∨ op = Op.forceReturn lpk)) ∧
    (∀ loan', lookupLoan (run ops) lpk = none →
      lookupLoan (step (run ops) op) lpk = some loan' →
      ∃ m bookPk, op = Op.checkout m bookPk ∧ loan'.memberId = m ∧
        loan'.bookId = bookPk ∧ loan'.isActive = true ∧
        loan'.returnedAt = none ∧ loan'.checkedOutAt = (run ops).now) :=
  loan_step_lifecycle (run ops) op lpk (loanKeysOK_run ops)

/-- Counterexample to C8 as stated: deleting book 1 — allowed because
its only loan is inactive — removes that returned Loan row through the
cascading foreign key. -/
theorem loan_deleted_with_book_counterexample :
    lookupLoan (run [Op.createBook fdThree, Op.checkout 7 1,
      Op.forceReturn 1]) 1 = some (loanT false (some 2)) ∧
    lookupLoan (run [Op.createBook fdThree, Op.checkout 7 1,
      Op.forceReturn 1, Op.deleteBook 1]) 1 = none := by
  constructor
  · decide
  · decide

/-- Witness for `loan_lifecycle`: the loan created by a concrete
checkout has the checkout shape. -/
theorem loan_lifecycle_witness :
    lookupLoan (run [Op.createBook fdThree]) 1 = none ∧
    lookupLoan (step (run [Op.createBook fdThree]) (Op.checkout 7 1)) 1 =
      some (loanT true none) ∧
    (∃ m bookPk, Op.checkout 7 1 = Op.checkout m bookPk ∧
      (loanT true none).memberId = m ∧ (loanT true none).bookId = bookPk ∧
      (loanT true none).isActive = true ∧
      (loanT true none).returnedAt = none ∧
      (loanT true none).checkedOutAt = (run [Op.createBook fdThree]).now) :=
  ⟨by decide, by decide,
    (loan_lifecycle [Op.createBook fdThree] (Op.checkout 7 1) 1).2.2
      (loanT true none) (by decide) (by decide)⟩

end LibraryCheckout
